import Mathlib

/-! # smtping: the SMTP client engine (`client.go`, `spec.go`)

A shallow embedding of the client of `nissy/smtping`.

* Go strings and byte slices are Lean `String`s; `len` is the UTF-8 byte size.
* Pointers to `Command` and `Mail` become values that are passed in and handed back;
  the commands of one batch are distinct objects, as in every call of the source.
* The network peer is an oracle `Peer`: every result of a transport operation is a
  function of the list of operations the client has performed so far (`Conn.hist`).
  Any deterministic server, well behaved or not, is such a function.  Every
  transport operation completes, with a result or with an error; a peer that
  leaves a read waiting forever is outside the model.
* `net/textproto` belongs to the Go standard library.  Its `Pipeline` sequencer
  (`Next`, `StartRequest`, `EndRequest`, `StartResponse`, `EndResponse`) is modelled
  by three counters, its `ReadResponse` in two steps: `wireReply` reads the lines of
  a reply and removes the code columns, `ReadResponse` compares the reply code with
  `expectCode`.
* `time.Time` values are instants in nanoseconds.
* A call that never returns to its caller (a sequencer that waits for a turn that
  never comes, an index out of range, a loop that outlives its fuel) yields
  `Except.error`.
-/

namespace Smtping

/-! ## Errors and control outcomes -/

/-- Go `error` values as the client distinguishes them: `*textproto.Error` carries a
reply code and message, everything else is only its `Error()` text. -/
inductive GoError where
  | proto (Code : Int) (Msg : String)
  | other (text : String)
  deriving DecidableEq, Repr

/-- Ways in which a call fails to return to its caller. -/
inductive Halt where
  | blocked
  | indexOutOfRange
  | nilDereference
  | fuel
  deriving DecidableEq, Repr

/-! ## Command / Response model (`client.go` lines 33-67) -/

structure Response where
  Code : Int
  Message : String
  deriving DecidableEq, Repr

structure Command where
  ExpectCode : Int
  Format : String
  Args : List String
  Response : Option Response
  Error : Option GoError
  deriving DecidableEq, Repr

def NewCommand (expectCode : Int) (format : String) (args : List String) : Command :=
  { ExpectCode := expectCode, Format := format, Args := args, Response := none, Error := none }

/-! ## The line transport (`net/textproto`) -/

/-- One operation of the client on its transport. -/
inductive Event where
  | printfLine (format : String) (args : List String)
  | readResponse (expectCode : Int)
  | dotWrite (content : String)
  | dotClose
  | close
  | tlsClient (serverName : String)
  deriving DecidableEq, Repr

/-- What one `ReadResponse` finds on the wire: a parsed reply (code, text with the
code columns already removed, lines joined by a line feed) or a failure to read
one (I/O error, malformed line).  `wireReply` gives it for the text a server
sends. -/
inductive Reply where
  | reply (code : Int) (message : String)
  | fail (text : String)
  deriving DecidableEq, Repr

/-- The network peer.  Each field answers one transport operation, given the
operations performed before it; `some text` is an I/O error with that text. -/
structure Peer where
  onPrintfLine : List Event → String → List String → Option String
  onReadResponse : List Event → Reply
  onDotWrite : List Event → String → Option String
  onDotClose : List Event → Option String
  onClose : List Event → Option String

/-- Sequencer state of `textproto.Pipeline`: the next id to hand out and the ids
whose request phase and response phase are due. -/
structure Pipeline where
  id : Nat
  request : Nat
  response : Nat
  deriving DecidableEq, Repr

/-- A `textproto.Conn`: the operations performed on it so far and its pipeline. -/
structure Conn where
  hist : List Event
  Pipeline : Pipeline
  deriving DecidableEq, Repr

/-- A fresh connection object on top of a stream with history `h`
(`textproto.NewConn`). -/
def NewConn (h : List Event) : Conn :=
  { hist := h, Pipeline := { id := 0, request := 0, response := 0 } }

/-- The check of `parseCodeLine`: does reply code `code` fail `expectCode`?  One
digit is compared with the hundreds, two digits with the tens, three digits with
the whole code; any other `expectCode` (0 in particular) disables the check. -/
def codeMismatch (expectCode code : Int) : Bool :=
  (decide (1 ≤ expectCode) && decide (expectCode < 10) && decide (Int.tdiv code 100 ≠ expectCode))
  || (decide (10 ≤ expectCode) && decide (expectCode < 100) && decide (Int.tdiv code 10 ≠ expectCode))
  || (decide (100 ≤ expectCode) && decide (expectCode < 1000) && decide (code ≠ expectCode))

/-- Result `(code, message, err)` of `ReadResponse(expectCode)` for what was found on
the wire.  A read failure gives code 0; a code below 100 is an invalid response
code; a code that fails `expectCode` gives a `*textproto.Error` with the reply. -/
def ReadResponse (r : Reply) (expectCode : Int) : Int × String × Option GoError :=
  match r with
  | .fail text => (0, "", some (.other text))
  | .reply code message =>
    if code < 100 then (code, "", some (.other "invalid response code"))
    else if codeMismatch expectCode code then (code, message, some (.proto code message))
    else (code, message, none)

/-! ## Client (`client.go` lines 19-26) -/

structure Client where
  Domain : String
  Host : String
  tConn : Conn
  extensions : String → Option String
  auth : List String

/-- The pipeline is idle: no request or response phase is outstanding. -/
def Conn.idle (t : Conn) : Prop :=
  t.Pipeline.request = t.Pipeline.id ∧ t.Pipeline.response = t.Pipeline.id

instance (t : Conn) : Decidable t.idle := by
  unfold Conn.idle; exact inferInstance

/-! ## Exec (`client.go` lines 69-100) -/

/-- The transport operation `PrintfLine(v.Format, v.Args...)`. -/
def writeEvent (v : Command) : Event := Event.printfLine v.Format v.Args

/-- The transport operation `ReadResponse(v.ExpectCode)`. -/
def readEvent (v : Command) : Event := Event.readResponse v.ExpectCode

/-- First loop of `Exec`: print the request lines in order, stop at the first
write error. -/
def writeLines (P : Peer) : List Command → List Event → List Event × Option GoError
  | [], h => (h, none)
  | v :: vs, h =>
    match P.onPrintfLine h v.Format v.Args with
    | some text => (h ++ [writeEvent v], some (.other text))
    | none => writeLines P vs (h ++ [writeEvent v])

/-- Second loop of `Exec`: one `ReadResponse` per command, in order; each command
receives its `Response` and `Error`. -/
def readReplies (P : Peer) : List Command → List Event → List Command × List Event
  | [], h => ([], h)
  | v :: vs, h =>
    let r := ReadResponse (P.onReadResponse h) v.ExpectCode
    let v1 : Command := { v with Response := some ⟨r.1, r.2.1⟩, Error := r.2.2 }
    let rest := readReplies P vs (h ++ [readEvent v])
    (v1 :: rest.1, rest.2)

/-- Result of a returning `Exec`: the client, the commands as the call left them,
and the returned error. -/
structure ExecResult where
  c : Client
  cmd : List Command
  err : Option GoError

def Exec (P : Peer) (c : Client) (cmd : List Command) : Except Halt ExecResult :=
  let p := c.tConn.Pipeline
  let id := p.id
  -- id := c.tConn.Next(); StartRequest(id) waits until the request phase of id is due
  -- (c.tConn.Pipeline.StartRequest and c.tConn.StartRequest are the same method)
  if p.request ≠ id then .error .blocked
  else
    let w := writeLines P cmd c.tConn.hist
    match w.2 with
    | some e =>
      -- return err: EndRequest is not reached
      .ok { c := { c with tConn := { hist := w.1, Pipeline := { p with id := id + 1 } } },
            cmd := cmd, err := some e }
    | none =>
      -- EndRequest(id); StartResponse(id) waits until the response phase of id is due
      if p.response ≠ id then .error .blocked
      else
        let r := readReplies P cmd w.1
        -- deferred EndResponse(id)
        let c1 : Client :=
          { c with tConn := { hist := r.2,
                              Pipeline := { id := id + 1, request := id + 1, response := id + 1 } } }
        match r.1.getLast? with
        | none => .error .indexOutOfRange
        | some last => .ok { c := c1, cmd := r.1, err := last.Error }

/-! ## Strings (`strings.Split`, `strings.SplitN`, `strings.TrimSpace`, `len`) -/

/-- Go `len` of a string: its number of bytes. -/
def len (s : String) : Int := s.utf8ByteSize

/-- Split a character list at every occurrence of `sep`. -/
def splitChars (sep : Char) : List Char → List (List Char)
  | [] => [[]]
  | c :: cs =>
    if c = sep then [] :: splitChars sep cs
    else
      match splitChars sep cs with
      | [] => [[c]]
      | w :: ws => (c :: w) :: ws

/-- Model of `strings.Split(s, sep)` for a one-character separator. -/
def Split (s : String) (sep : Char) : List String :=
  (splitChars sep s.data).map String.mk

/-- Cut a character list at its first `sep`: what stands before it, and what
stands after it when there is one. -/
def cutChars (sep : Char) : List Char → List Char × Option (List Char)
  | [] => ([], none)
  | c :: cs =>
    if c = sep then ([], some cs)
    else ((c :: (cutChars sep cs).1), (cutChars sep cs).2)

/-- Model of `strings.SplitN(s, sep, 2)` for a one-character separator: one or
two pieces. -/
def SplitN2 (s : String) (sep : Char) : List String :=
  match cutChars sep s.data with
  | (k, none) => [String.mk k]
  | (k, some p) => [String.mk k, String.mk p]

/-- White space in the sense of `unicode.IsSpace`. -/
def isSpace (c : Char) : Bool :=
  let n := c.toNat
  (9 ≤ n && n ≤ 13) || n = 32 || n = 0x85 || n = 0xA0 || n = 0x1680
  || (0x2000 ≤ n && n ≤ 0x200A) || n = 0x2028 || n = 0x2029 || n = 0x202F
  || n = 0x205F || n = 0x3000

/-- Model of `strings.TrimSpace`. -/
def TrimSpace (s : String) : String :=
  String.mk ((s.data.dropWhile isSpace).reverse.dropWhile isSpace).reverse

/-! ## Replies on the wire (`net/textproto`: `ReadLine`, `parseCodeLine`, `ReadResponse`) -/

/-- Drop a carriage return that ends a line. -/
def dropCR : List Char → List Char
  | [] => []
  | [c] => if c = '\r' then [] else [c]
  | c :: d :: cs => c :: dropCR (d :: cs)

/-- The lines that successive `ReadLine` calls return for the bytes `text`
followed by the end of the stream: the text is cut at every line feed and a
carriage return before the line feed is dropped; what stands after the last line
feed is a line of its own when it is not empty. -/
def wireLines (text : String) : List String :=
  let segments := Split text '\n'
  (segments.dropLast.map fun l => String.mk (dropCR l.data))
    ++ (match segments.getLast? with
        | none => []
        | some l => if l = "" then [] else [l])

/-- Split a character list after its first `n` bytes (UTF-8): the characters that
make up these bytes and the rest, `none` when there are fewer bytes or byte `n`
lies inside a character. -/
def takeBytes : List Char → Nat → Option (List Char × List Char)
  | cs, 0 => some ([], cs)
  | [], _ + 1 => none
  | c :: cs, n + 1 =>
    if c.utf8Size ≤ n + 1 then
      (takeBytes cs (n + 1 - c.utf8Size)).map fun p => (c :: p.1, p.2)
    else none

/-- Value of a string of decimal digits, `none` when it is empty or has another
byte. -/
def digitsValue : List Char → Nat → Option Nat
  | [], _ => none
  | [c], acc => if '0' ≤ c ∧ c ≤ '9' then some (acc * 10 + (c.toNat - 48)) else none
  | c :: d :: cs, acc =>
    if '0' ≤ c ∧ c ≤ '9' then digitsValue (d :: cs) (acc * 10 + (c.toNat - 48)) else none

/-- Model of `strconv.Atoi` on a short string: an optional sign and decimal
digits. -/
def Atoi (s : List Char) : Option Int :=
  match s with
  | [] => none
  | c :: cs =>
    if c = '-' then (digitsValue cs 0).map fun n => -(n : Int)
    else if c = '+' then (digitsValue cs 0).map fun n => (n : Int)
    else (digitsValue (c :: cs) 0).map fun n => (n : Int)

/-- Model of `parseCodeLine(line, 0)`: code, continuation flag, message and
error text of one response line.  A line of fewer than four bytes, or whose
fourth byte is neither a space nor a hyphen, is a short response; the first
three bytes must be a number that is at least 100; the message is what follows
the fourth byte. -/
def parseCodeLine (line : String) : Int × Bool × String × Option String :=
  match takeBytes line.data 3 with
  | some (digits, d :: rest) =>
    if d = ' ' ∨ d = '-' then
      match Atoi digits with
      | none => (0, decide (d = '-'), "", some ("invalid response code: " ++ line))
      | some code =>
        if code < 100 then (code, decide (d = '-'), "", some ("invalid response code: " ++ line))
        else (code, decide (d = '-'), String.mk rest, none)
    else (0, false, "", some ("short response: " ++ line))
  | _ => (0, false, "", some ("short response: " ++ line))

/-- Model of `strings.TrimRight(line, "\r\n")`. -/
def TrimRightCRLF (s : String) : String :=
  String.mk (s.data.reverse.dropWhile fun c => c = '\r' ∨ c = '\n').reverse

/-- The loop `for continued` of `ReadResponse`: read lines until one carries the
reply's code without a hyphen.  A line with that code adds its message, any other
line is added whole; the end of the stream is a read error. -/
def readContinued (code : Int) : List String → String → Reply
  | [], _ => Reply.fail "EOF"
  | line :: rest, message =>
    let p := parseCodeLine line
    if p.2.2.2.isSome ∨ p.1 ≠ code then
      readContinued code rest (message ++ "\n" ++ TrimRightCRLF line)
    else if p.2.1 then readContinued code rest (message ++ "\n" ++ p.2.2.1)
    else Reply.reply code (message ++ "\n" ++ p.2.2.1)

/-- What one `ReadResponse` finds when the server sends the text `text`: the code
of the first line and the message with the code columns removed, the lines
joined by line feeds.  A first line that is not a response line, and a stream
that ends inside a continued reply, are read failures. -/
def wireReply (text : String) : Reply :=
  match wireLines text with
  | [] => Reply.fail "EOF"
  | first :: rest =>
    let p := parseCodeLine first
    if p.2.1 then readContinued p.1 rest p.2.2.1
    else
      match p.2.2.2 with
      | some e => if p.1 = 0 then Reply.fail e else Reply.reply p.1 p.2.2.1
      | none => Reply.reply p.1 p.2.2.1

/-- The lines of a 250 reply as a server sends them: every line but the last
begins `250-`, the last begins `250 `. -/
def codedLines : List String → List String
  | [] => []
  | [l] => ["250 " ++ l]
  | l :: m :: ls => ("250-" ++ l) :: codedLines (m :: ls)

/-- Lines joined by line feeds. -/
def joinLines : List String → String
  | [] => ""
  | [l] => l
  | l :: m :: ls => l ++ "\n" ++ joinLines (m :: ls)

/-! ## Time (`spec.go`) -/

def minDuration : Int := -(2 ^ 63)

def maxDuration : Int := 2 ^ 63 - 1

/-- Model of `time.Time.Sub` on instants given in nanoseconds: the difference,
saturated to the range of `time.Duration`. -/
def Sub (t u : Int) : Int :=
  if t - u < minDuration then minDuration
  else if maxDuration < t - u then maxDuration
  else t - u

/-- Elapsed milliseconds: `end.Sub(start).Nanoseconds() / int64(time.Millisecond)`,
with Go's truncating division. -/
def Processing (start endT : Int) : Int :=
  Int.tdiv (Sub endT start) 1000000

/-! ## Mail envelope (`client.go` lines 46-59, 102-110) -/

structure Mail where
  Date : Int
  Stat : String
  From : String
  To : String
  Subject : String
  Body : String
  Size : Int
  Time : Int
  Code : Int
  Message : String
  Error : Option GoError
  Commands : List Command
  deriving DecidableEq, Repr

def Mail.Content (m : Mail) : String :=
  let c := ""
  let c := c ++ ("From:" ++ m.From ++ "\r\n")
  let c := c ++ ("To:" ++ m.To ++ "\r\n")
  let c := c ++ ("Subject:" ++ m.Subject ++ "\r\n")
  let c := c ++ (m.Body ++ "\r\n")
  c

/-! ## Extension table (`client.go` lines 170-177) -/

/-- Assignment `m[k] = v` on a Go map. -/
def mapSet (m : String → Option String) (k v : String) : String → Option String :=
  fun x => if x = k then some v else m x

/-- Go `delete(m, k)`. -/
def mapDelete (m : String → Option String) (k : String) : String → Option String :=
  fun x => if x = k then none else m x

def Client.IsExtension (c : Client) (name : String) : Bool :=
  (c.extensions name).isSome

def Client.DisableExtension (c : Client) (name : String) : Client :=
  { c with extensions := mapDelete c.extensions name }

/-! ## Close (`client.go` lines 277-283) -/

def Close (P : Peer) (c : Client) : Except Halt (Client × Option GoError) :=
  match Exec P c [NewCommand 221 "QUIT" []] with
  | .error h => .error h
  | .ok r =>
    match r.err with
    | some e => .ok (r.c, some e)
    | none =>
      .ok ({ r.c with tConn := { r.c.tConn with hist := r.c.tConn.hist ++ [Event.close] } },
           (P.onClose r.c.tConn.hist).map GoError.other)

/-! ## MailSend (`client.go` lines 285-365) -/

/-- The three commands of one submission. -/
def mailCommands (sender rcpt : String) : List Command :=
  [ { ExpectCode := 250, Format := "MAIL FROM:<%s>%s", Args := [sender, " BODY=8BITMIME"],
      Response := none, Error := none },
    { ExpectCode := 250, Format := "RCPT TO:<%s>", Args := [rcpt],
      Response := none, Error := none },
    { ExpectCode := 354, Format := "DATA", Args := [], Response := none, Error := none } ]

/-- The deferred function of `MailSend`: classify the outcome, then record end
time, elapsed milliseconds and size. -/
def finish (m : Mail) (sTime now : Int) : Mail :=
  let m1 : Mail :=
    match m.Error with
    | none => m
    | some (.proto code msg) => { m with Stat := "bounce", Code := code, Message := msg }
    | some (.other text) => { m with Stat := "bounce", Message := text }
  { m1 with Date := now, Time := Processing sTime now, Size := len m1.Body }

/-- The sequential branch: `for _, v := range m.Commands` with one `Exec(v)` per
command, left at the first error.  Returns the commands as the loop left them. -/
def execEach (P : Peer) : Client → List Command → Except Halt (Client × List Command × Option GoError)
  | c, [] => .ok (c, [], none)
  | c, v :: vs =>
    match Exec P c [v] with
    | .error h => .error h
    | .ok r =>
      match r.err with
      | some e => .ok (r.c, r.cmd.headD v :: vs, some e)
      | none =>
        match execEach P r.c vs with
        | .error h => .error h
        | .ok (c2, vs2, e) => .ok (c2, r.cmd.headD v :: vs2, e)

/-- Steps 3 and 4 of a submission: write the content through the dot writer, close
it, read the final reply expecting 250. -/
def sendData (P : Peer) (c : Client) (m : Mail) : Client × Mail :=
  let h0 := c.tConn.hist
  let h1 := h0 ++ [Event.dotWrite m.Content]
  match P.onDotWrite h0 m.Content with
  | some text => ({ c with tConn := { c.tConn with hist := h1 } }, { m with Error := some (.other text) })
  | none =>
    let h2 := h1 ++ [Event.dotClose]
    match P.onDotClose h1 with
    | some text => ({ c with tConn := { c.tConn with hist := h2 } }, { m with Error := some (.other text) })
    | none =>
      let r := ReadResponse (P.onReadResponse h2) 250
      ({ c with tConn := { c.tConn with hist := h2 ++ [Event.readResponse 250] } },
       { m with Code := r.1, Message := r.2.1, Error := r.2.2 })

/-- The envelope as `MailSend` sets it up before the clock is read: the literal
`&Mail{...}` and the assignment of `m.Commands`. -/
def newMail (c : Client) (sender user subject body : String) : Mail :=
  let m : Mail :=
    { Date := 0, Stat := "sent", From := sender, To := user ++ "@" ++ c.Domain, Subject := subject,
      Body := body, Size := 0, Time := 0, Code := 0, Message := "", Error := none, Commands := [] }
  { m with Commands := mailCommands m.From m.To }

/-- Run `MailSend`; `sTime` and `eTime` are the two readings of `time.Now()`. -/
def MailSend (P : Peer) (c : Client) (sTime eTime : Int) (sender user subject body : String) :
    Except Halt (Client × Mail) :=
  let m := newMail c sender user subject body
  let run := if c.IsExtension "PIPELINING" then
      (match Exec P c m.Commands with
       | .error h => .error h
       | .ok r => .ok (r.c, r.cmd, r.err))
    else execEach P c m.Commands
  match run with
  | .error h => .error h
  | .ok (c1, cmds, some e) => .ok (c1, finish { m with Commands := cmds, Error := some e } sTime eTime)
  | .ok (c1, cmds, none) =>
    let r := sendData P c1 { m with Commands := cmds, Error := none }
    .ok (r.1, finish r.2 sTime eTime)

/-! ## EHLO (`client.go` lines 179-205) -/

/-- The `Response` of the first command of a batch; a nil `Response` cannot be
read. -/
def firstResponse (cmd : List Command) : Except Halt Response :=
  match cmd with
  | [] => .error .indexOutOfRange
  | v :: _ =>
    match v.Response with
    | none => .error .nilDereference
    | some r => .ok r

/-- Body of the loop over `exts[1:]`: one line becomes one table entry. -/
def extensionLine (m : String → Option String) (line : String) : String → Option String :=
  let args := SplitN2 line ' '
  if args.length > 1 then mapSet m (args.getD 0 "") (args.getD 1 "")
  else mapSet m (args.getD 0 "") ""

/-- The extension table that `ehlo` builds from the reply message. -/
def parseExtensions (message : String) : String → Option String :=
  let exts := Split message '\n'
  if exts.length > 1 then (exts.drop 1).foldl extensionLine (fun _ => none)
  else fun _ => none

/-- The mechanism list after the table is built: the `AUTH` parameter split on
spaces when the table has an `AUTH` entry, else the old value. -/
def parseAuth (extensions : String → Option String) (old : List String) : List String :=
  match extensions "AUTH" with
  | some mechs => Split mechs ' '
  | none => old

def ehlo (P : Peer) (c : Client) : Except Halt (Client × Option GoError) :=
  match Exec P c [NewCommand 250 "EHLO %s" ["localhost"]] with
  | .error h => .error h
  | .ok r =>
    match r.err with
    | some e => .ok (r.c, some e)
    | none =>
      match firstResponse r.cmd with
      | .error h => .error h
      | .ok rsp =>
        let ext := parseExtensions rsp.Message
        .ok ({ r.c with extensions := ext, auth := parseAuth ext r.c.auth }, none)

/-! ## AUTH (`client.go` lines 207-275) -/

/-- Modelled from the spec: the `ServerInfo` record handed to a mechanism (host,
whether TLS is active, advertised mechanism list); its declaration is not among
the source files. -/
structure ServerInfo where
  Name : String
  TLS : Bool
  Auth : List String
  deriving DecidableEq, Repr

/-- Modelled from the spec: the `Auth` mechanism interface, `Start(serverInfo) ->
(mechanismName, initialResponse, error)` and `Next(serverChallenge, moreExpected)
-> (response, error)`, as a state machine over a state `μ`; a response `none` is
a nil payload.  Its declaration is not among the source files. -/
structure Auth (μ : Type) where
  Start : μ → ServerInfo → μ × String × Option String × Option GoError
  Next : μ → String → Bool → μ × Option String × Option GoError

/-- The two operations used of `base64.StdEncoding`; `DecodeString` returns the
decoded bytes and an error. -/
structure Encoding where
  EncodeToString : String → String
  DecodeString : String → String × Option GoError

/-- Result of a returning `Auth`: client, mechanism state, returned error. -/
structure AuthResult (μ : Type) where
  c : Client
  s : μ
  err : Option GoError

/-- The `switch` at the head of the negotiation loop: the bytes for `Next` and an
error, from the code and message of a response. -/
def authSwitch (E : Encoding) (rsp : Response) : String × Option GoError :=
  if rsp.Code = 334 then E.DecodeString rsp.Message
  else if rsp.Code = 235 then (rsp.Message, none)
  else ("", some (.proto rsp.Code rsp.Message))

/-- The loop `for err == nil` of `Auth`.  `cmd` is the command declared before the
loop: the `cmd := NewCommand(0, string(resp64))` inside the body declares a new
variable of the body's block, so the loop head reads the outer one every time.
`fuel` bounds the number of iterations. -/
def authLoop {μ : Type} (E : Encoding) (a : Auth μ) (P : Peer) (cmd : Command) :
    Nat → Client → μ → Except Halt (AuthResult μ)
  | 0, _, _ => .error .fuel
  | fuel + 1, c, s =>
    match cmd.Response with
    | none => .error .nilDereference
    | some rsp =>
      let sw := authSwitch E rsp
      let nx : μ × Option String × Option GoError :=
        match sw.2 with
        | none => a.Next s sw.1 (decide (rsp.Code = 334))
        | some e => (s, none, some e)
      match nx.2.2 with
      | some _ =>
        -- err = c.Exec(NewCommand(501, "*"))
        match Exec P c [NewCommand 501 "*" []] with
        | .error h => .error h
        | .ok r =>
          match r.err with
          | some e => .ok { c := r.c, s := nx.1, err := some e }
          | none =>
            match Close P r.c with
            | .error h => .error h
            | .ok cl => .ok { c := cl.1, s := nx.1, err := none }
      | none =>
        match nx.2.1 with
        | none => .ok { c := c, s := nx.1, err := none }
        | some resp =>
          match Exec P c [NewCommand 0 (E.EncodeToString resp) []] with
          | .error h => .error h
          | .ok r =>
            match r.err with
            | some e => .ok { c := r.c, s := nx.1, err := some e }
            | none => authLoop E a P cmd fuel r.c nx.1

/-- The literal `&ServerInfo{c.Host, c.IsExtension("STARTTLS"), c.auth}`. -/
def Client.serverInfo (c : Client) : ServerInfo :=
  { Name := c.Host, TLS := c.IsExtension "STARTTLS", Auth := c.auth }

/-- Run `Auth` with mechanism `a` in state `s`. -/
def Client.Auth {μ : Type} (E : Encoding) (P : Peer) (fuel : Nat) (c : Client) (a : Auth μ) (s : μ) :
    Except Halt (AuthResult μ) :=
  let st := a.Start s c.serverInfo
  match st.2.2.2 with
  | some e =>
    match Close P c with
    | .error h => .error h
    | .ok cl => .ok { c := cl.1, s := st.1, err := some e }
  | none =>
    let resp64 := E.EncodeToString (st.2.2.1.getD "")
    let cmd := NewCommand 0 (TrimSpace ("AUTH " ++ st.2.1 ++ " " ++ resp64)) []
    match Exec P c [cmd] with
    | .error h => .error h
    | .ok r =>
      match r.err with
      | some e => .ok { c := r.c, s := st.1, err := some e }
      | none => authLoop E a P (r.cmd.headD cmd) fuel r.c st.1

/-! ## NewClient (`client.go` lines 112-168) -/

/-- The two calls into package `net`: the host part of an address, and the
outcome of dialling it. -/
structure Net where
  SplitHostPort : String → Except GoError String
  DialTimeout : String → Option GoError

def connect (N : Net) (P : Peer) (c : Client) (addr : String) : Client × Option GoError :=
  match N.DialTimeout addr with
  | some e => (c, some e)
  | none =>
    let t := NewConn []
    let r := ReadResponse (P.onReadResponse t.hist) 220
    let t1 : Conn := { t with hist := t.hist ++ [Event.readResponse 220] }
    match r.2.2 with
    | some e => ({ c with tConn := { t1 with hist := t1.hist ++ [Event.close] } }, some e)
    | none => ({ c with tConn := t1 }, none)

/-- Result of a returning `NewClient`: the client (none for a nil client), the
mechanism state, and the error. -/
structure NewClientResult (μ : Type) where
  c : Option Client
  s : μ
  err : Option GoError

def NewClient {μ : Type} (N : Net) (E : Encoding) (P : Peer) (fuel : Nat)
    (domain addr : String) (auth : Option (Auth μ)) (s : μ) : Except Halt (NewClientResult μ) :=
  match N.SplitHostPort addr with
  | .error e => .ok { c := none, s := s, err := some e }
  | .ok host =>
    let c0 : Client :=
      { Domain := domain, Host := host, tConn := NewConn [], extensions := fun _ => none, auth := [] }
    match connect N P c0 addr with
    | (_, some e) => .ok { c := none, s := s, err := some e }
    | (c1, none) =>
      match ehlo P c1 with
      | .error h => .error h
      | .ok (c2, some _) =>
        match Exec P c2 [NewCommand 250 "HELO %s" ["localhost"]] with
        | .error h => .error h
        | .ok r =>
          match r.err with
          | some e => .ok { c := none, s := s, err := some e }
          | none => .ok { c := some r.c, s := s, err := none }
      | .ok (c2, none) =>
        let tls : Except Halt (Client × Option GoError) :=
          if c2.IsExtension "STARTTLS" then
            match Exec P c2 [NewCommand 220 "STARTTLS" []] with
            | .error h => .error h
            | .ok r =>
              match r.err with
              | some e => .ok (r.c, some e)
              | none =>
                .ok ({ r.c with tConn := NewConn (r.c.tConn.hist ++ [Event.tlsClient r.c.Host]) }, none)
          else .ok (c2, none)
        match tls with
        | .error h => .error h
        | .ok (_, some e) => .ok { c := none, s := s, err := some e }
        | .ok (c3, none) =>
          match auth with
          | none => .ok { c := some c3, s := s, err := none }
          | some a =>
            match Client.Auth E P fuel c3 a s with
            | .error h => .error h
            | .ok r =>
              match r.err with
              | some e => .ok { c := none, s := r.s, err := some e }
              | none => .ok { c := some r.c, s := r.s, err := none }

/-! ## Observations used to state the properties

Functions of the peer and of a history that name what the transport answers at a
given point.  They do not occur in the definitions above. -/

/-- What the `i`-th `ReadResponse` of a batch returns for command `v`, when the
lines of the whole batch were written from history `h` and `i` replies were read
before: `(code, message, err)`. -/
def batchReply (P : Peer) (h : List Event) (cmd : List Command) (i : Nat) (v : Command) :
    Int × String × Option GoError :=
  ReadResponse (P.onReadResponse (h ++ cmd.map writeEvent ++ (cmd.take i).map readEvent))
    v.ExpectCode

/-- Events of a list of commands executed one at a time, each exchange (one line
written, one reply read) completing before the next begins. -/
def exchangeHist : List Command → List Event
  | [] => []
  | v :: vs => writeEvent v :: readEvent v :: exchangeHist vs

/-- The error of the single-command exchange of `v` begun at history `h`: the
write error, else the error of the read that follows (read failure or a reply
code that fails the expected code). -/
def exchangeError (P : Peer) (h : List Event) (v : Command) : Option GoError :=
  match P.onPrintfLine h v.Format v.Args with
  | some text => some (.other text)
  | none => (ReadResponse (P.onReadResponse (h ++ [writeEvent v])) v.ExpectCode).2.2

/-- The transport operations of that exchange: the write, and the read when the
write succeeded. -/
def exchangeEvents (P : Peer) (h : List Event) (v : Command) : List Event :=
  match P.onPrintfLine h v.Format v.Args with
  | some _ => [writeEvent v]
  | none => [writeEvent v, readEvent v]

/-- The error of the data phase begun at history `h`: the first of the error of
writing the content, of closing the dot writer, and of the final read that
expects 250. -/
def dataError (P : Peer) (h : List Event) (content : String) : Option GoError :=
  match P.onDotWrite h content with
  | some text => some (.other text)
  | none =>
    match P.onDotClose (h ++ [Event.dotWrite content]) with
    | some text => some (.other text)
    | none =>
      (ReadResponse (P.onReadResponse (h ++ [Event.dotWrite content, Event.dotClose])) 250).2.2

/-- The transport operations of the data phase begun at history `h`: the content
write, then the close of the dot writer, then the final read, up to the first
that fails. -/
def dataEvents (P : Peer) (h : List Event) (content : String) : List Event :=
  match P.onDotWrite h content with
  | some _ => [Event.dotWrite content]
  | none =>
    match P.onDotClose (h ++ [Event.dotWrite content]) with
    | some _ => [Event.dotWrite content, Event.dotClose]
    | none => [Event.dotWrite content, Event.dotClose, Event.readResponse 250]

/-- The sequential submission meets no error: each of the three single-command
exchanges, begun after the exchanges before it, has no error, and neither has the
data phase that follows them. -/
def sequentialClean (P : Peer) (c : Client) (sender user subject body : String) : Prop :=
  (∀ j (hj : j < (mailCommands sender (user ++ "@" ++ c.Domain)).length),
    exchangeError P
      (c.tConn.hist ++ exchangeHist ((mailCommands sender (user ++ "@" ++ c.Domain)).take j))
      (mailCommands sender (user ++ "@" ++ c.Domain))[j] = none) ∧
  dataError P (c.tConn.hist ++ exchangeHist (mailCommands sender (user ++ "@" ++ c.Domain)))
    (newMail c sender user subject body).Content = none

/-- The pipelined submission meets no error that `MailSend` looks at: the three
request lines are written, the third reply read (the one to `DATA`) has no error,
and neither has the data phase.  The replies to `MAIL FROM` and `RCPT TO` do not
occur here. -/
def pipelinedClean (P : Peer) (c : Client) (sender user subject body : String) : Prop :=
  (∀ j (hj : j < (mailCommands sender (user ++ "@" ++ c.Domain)).length),
    P.onPrintfLine
      (c.tConn.hist ++ ((mailCommands sender (user ++ "@" ++ c.Domain)).take j).map writeEvent)
      (mailCommands sender (user ++ "@" ++ c.Domain))[j].Format
      (mailCommands sender (user ++ "@" ++ c.Domain))[j].Args = none) ∧
  (batchReply P c.tConn.hist (mailCommands sender (user ++ "@" ++ c.Domain)) 2
    (NewCommand 354 "DATA" [])).2.2 = none ∧
  dataError P
    (c.tConn.hist ++ (mailCommands sender (user ++ "@" ++ c.Domain)).map writeEvent
      ++ (mailCommands sender (user ++ "@" ++ c.Domain)).map readEvent)
    (newMail c sender user subject body).Content = none

/-- The line `Auth` sends first: `AUTH`, the mechanism name and the encoded initial
response that `Start` returns, trimmed. -/
def authLine {μ : Type} (E : Encoding) (a : Auth μ) (s : μ) (c : Client) : String :=
  TrimSpace ("AUTH " ++ (a.Start s c.serverInfo).2.1 ++ " "
    ++ E.EncodeToString ((a.Start s c.serverInfo).2.2.1.getD ""))

instance (P : Peer) (c : Client) (sender user subject body : String) :
    Decidable (sequentialClean P c sender user subject body) := by
  unfold sequentialClean; exact inferInstance

instance (P : Peer) (c : Client) (sender user subject body : String) :
    Decidable (pipelinedClean P c sender user subject body) := by
  unfold pipelinedClean; exact inferInstance

/-! ## Concrete peers, clients, mechanisms and an encoding -/

/-- Number of `ReadResponse` calls in a history. -/
def countReads : List Event → Nat
  | [] => 0
  | Event.readResponse _ :: h => countReads h + 1
  | _ :: h => countReads h

/-- Number of `PrintfLine` calls in a history. -/
def countWrites : List Event → Nat
  | [] => 0
  | Event.printfLine _ _ :: h => countWrites h + 1
  | _ :: h => countWrites h

/-- A peer that answers the n-th read with the n-th entry of `replies` (end of
file after the last) and accepts every write, except that the line with index
`failAt` cannot be written. -/
def scriptPeer (replies : List Reply) (failAt : Option Nat) : Peer :=
  { onPrintfLine := fun h _ _ => if failAt = some (countWrites h) then some "broken pipe" else none
    onReadResponse := fun h => replies.getD (countReads h) (Reply.fail "EOF")
    onDotWrite := fun _ _ => none
    onDotClose := fun _ => none
    onClose := fun _ => none }

/-- A client right after `textproto.NewConn`, with the given extension table. -/
def freshClient (domain host : String) (ext : String → Option String) : Client :=
  { Domain := domain, Host := host, tConn := NewConn [], extensions := ext, auth := [] }

/-- What `Exec` hands back for the one-command batch `NOOP` answered with 250 on
a fresh client. -/
def noopResult : ExecResult :=
  { c := { freshClient "example.org" "mail.example.org" (fun _ => none) with
           tConn := { hist := [Event.printfLine "NOOP" [], Event.readResponse 250],
                      Pipeline := { id := 1, request := 1, response := 1 } } },
    cmd := [⟨250, "NOOP", [], some ⟨250, "ok"⟩, none⟩], err := none }

/-- A client after a handshake in which the server advertised `PIPELINING`. -/
def pipeliningClient : Client :=
  freshClient "example.org" "mail.example.org" (mapSet (fun _ => none) "PIPELINING" "")

/-- A peer that accepts `MAIL FROM` and rejects `RCPT TO` with 550. -/
def rejectingPeer : Peer :=
  scriptPeer [Reply.reply 250 "ok", Reply.reply 550 "no such user"] none

/-- A server that answers `QUIT` with 421. -/
def quitRefusedPeer : Peer := scriptPeer [Reply.reply 421 "try again later"] none

/-- A server whose reply to `EHLO` is the text `250-mail.example.com`,
`250-PIPELINING`, `250 AUTH PLAIN LOGIN`. -/
def ehloPeer : Peer :=
  scriptPeer [wireReply "250-mail.example.com\n250-PIPELINING\n250 AUTH PLAIN LOGIN"] none

/-! ### A base64 encoding

`base64.StdEncoding` restricted to strings whose characters are bytes (code
points below 256), which is all that is encoded or decoded below. -/

def b64Alphabet : List Char :=
  "ABCDEFGHIJKLMNOPQRSTUVWXYZabcdefghijklmnopqrstuvwxyz0123456789+/".data

def b64Char (n : Nat) : Char := b64Alphabet.getD n (Char.ofNat 65)

def b64EncodeBytes : List Nat → List Char
  | [] => []
  | [a] => [b64Char (a / 4), b64Char (a % 4 * 16), Char.ofNat 61, Char.ofNat 61]
  | [a, b] => [b64Char (a / 4), b64Char (a % 4 * 16 + b / 16), b64Char (b % 16 * 4), Char.ofNat 61]
  | a :: b :: c :: rest =>
    b64Char (a / 4) :: b64Char (a % 4 * 16 + b / 16) :: b64Char (b % 16 * 4 + c / 64)
      :: b64Char (c % 64) :: b64EncodeBytes rest

def b64Value (c : Char) : Option Nat :=
  if b64Alphabet.indexOf c < 64 then some (b64Alphabet.indexOf c) else none

def b64DecodeChars : List Char → Option (List Nat)
  | [] => some []
  | a :: b :: c :: d :: rest =>
    match b64Value a, b64Value b with
    | some x, some y =>
      if c = Char.ofNat 61 ∧ d = Char.ofNat 61 ∧ rest = [] then some [x * 4 + y / 16]
      else
        match b64Value c with
        | none => none
        | some z =>
          if d = Char.ofNat 61 ∧ rest = [] then some [x * 4 + y / 16, y % 16 * 16 + z / 4]
          else
            match b64Value d, b64DecodeChars rest with
            | some w, some tail =>
              some ((x * 4 + y / 16) :: (y % 16 * 16 + z / 4) :: (z % 4 * 64 + w) :: tail)
            | _, _ => none
    | _, _ => none
  | _ => none

def asciiBase64 : Encoding :=
  { EncodeToString := fun s => String.mk (b64EncodeBytes (s.data.map Char.toNat))
    DecodeString := fun s =>
      match b64DecodeChars s.data with
      | some bytes => (String.mk (bytes.map Char.ofNat), none)
      | none => ("", some (GoError.other "illegal base64 data")) }

/-! ### Mechanisms and servers of an `AUTH` negotiation -/

/-- A mechanism in the style of PLAIN: the credentials go out with the `AUTH`
line, a challenge is an error.  Its state lists the arguments of the calls of
`Next`. -/
def plainMech : Auth (List (String × Bool)) :=
  { Start := fun s _ => (s, "PLAIN", some "\x00user\x00secret", none)
    Next := fun s fromServer more =>
      (s ++ [(fromServer, more)], none,
       if more then some (GoError.other "unexpected server challenge") else none) }

/-- A mechanism in the style of LOGIN: it answers the challenge `Username:` with
the user name and `Password:` with the password; when no more data is expected
it is done.  Its state lists the arguments of the calls of `Next`. -/
def loginMech : Auth (List (String × Bool)) :=
  { Start := fun s _ => (s, "LOGIN", none, none)
    Next := fun s fromServer more =>
      if more then
        if fromServer = "Username:" then (s ++ [(fromServer, more)], some "user", none)
        else if fromServer = "Password:" then (s ++ [(fromServer, more)], some "secret", none)
        else (s ++ [(fromServer, more)], none, some (GoError.other "Unknown fromServer"))
      else (s ++ [(fromServer, more)], none, none) }

/-- Name resolution and dialling that always succeed. -/
def localNet : Net :=
  { SplitHostPort := fun _ => .ok "mail.example.org"
    DialTimeout := fun _ => none }

/-- A server that greets, advertises `AUTH PLAIN`, rejects the credentials with
535, acknowledges the cancellation line with 501 and `QUIT` with 221. -/
def rejectAuthPeer : Peer :=
  scriptPeer [Reply.reply 220 "mail.example.org ESMTP", Reply.reply 250 "mail.example.org\nAUTH PLAIN",
              Reply.reply 535 "authentication failed", Reply.reply 501 "cancelled",
              Reply.reply 221 "bye"] none

/-- A server that greets, advertises `AUTH PLAIN`, sends a challenge the
mechanism refuses, acknowledges the cancellation line with 501 and `QUIT` with
221. -/
def challengePeer : Peer :=
  scriptPeer [Reply.reply 220 "mail.example.org ESMTP", Reply.reply 250 "mail.example.org\nAUTH PLAIN",
              Reply.reply 334 "", Reply.reply 501 "cancelled", Reply.reply 221 "bye"] none

/-- A server that runs a LOGIN exchange: 334 `Username:`, 334 `Password:`, 235. -/
def loginPeer : Peer :=
  scriptPeer [Reply.reply 334 "VXNlcm5hbWU6", Reply.reply 334 "UGFzc3dvcmQ6",
              Reply.reply 235 "2.7.0 Authentication successful"] none

/-- A server that rejects the credentials of the `AUTH` line with 535, acknowledges
the cancellation line with 501 and `QUIT` with 221. -/
def rejectCredentialsPeer : Peer :=
  scriptPeer [Reply.reply 535 "authentication failed", Reply.reply 501 "cancelled",
              Reply.reply 221 "bye"] none

/-! # Theorems -/

/-! ## The two loops of `Exec` -/

theorem writeLines_ok (P : Peer) : ∀ (cmd : List Command) (h : List Event),
    (∀ i (hi : i < cmd.length),
      P.onPrintfLine (h ++ (cmd.take i).map writeEvent) cmd[i].Format cmd[i].Args = none) →
    writeLines P cmd h = (h ++ cmd.map writeEvent, none) := by
  intro cmd
  induction cmd with
  | nil => intro h _; simp [writeLines]
  | cons v vs ih =>
    intro h hw
    have h0 := hw 0 (by simp)
    simp at h0
    have hrest : ∀ i (hi : i < vs.length),
        P.onPrintfLine ((h ++ [writeEvent v]) ++ (vs.take i).map writeEvent) vs[i].Format vs[i].Args
          = none := by
      intro i hi
      have := hw (i + 1) (by simpa using hi)
      simpa using this
    simp [writeLines, h0, ih (h ++ [writeEvent v]) hrest]

theorem writeLines_fail (P : Peer) : ∀ (cmd : List Command) (h : List Event) (k : Nat)
    (hk : k < cmd.length) (text : String),
    (∀ i (hi : i < k),
      P.onPrintfLine (h ++ (cmd.take i).map writeEvent) (cmd[i]).Format (cmd[i]).Args = none) →
    P.onPrintfLine (h ++ (cmd.take k).map writeEvent) cmd[k].Format cmd[k].Args = some text →
    writeLines P cmd h = (h ++ (cmd.take (k + 1)).map writeEvent, some (.other text)) := by
  intro cmd
  induction cmd with
  | nil => intro h k hk; simp at hk
  | cons v vs ih =>
    intro h k hk text hw hf
    cases k with
    | zero =>
      simp at hf
      simp [writeLines, hf]
    | succ k =>
      have h0 := hw 0 (by omega)
      simp at h0
      have hk2 : k < vs.length := by simpa using hk
      have hrest : ∀ i (hi : i < k),
          P.onPrintfLine ((h ++ [writeEvent v]) ++ (vs.take i).map writeEvent)
            (vs[i]).Format (vs[i]).Args = none := by
        intro i hi
        have := hw (i + 1) (by omega)
        simpa using this
      have hf2 : P.onPrintfLine ((h ++ [writeEvent v]) ++ (vs.take k).map writeEvent)
          vs[k].Format vs[k].Args = some text := by
        simpa using hf
      simp [writeLines, h0, ih (h ++ [writeEvent v]) k hk2 text hrest hf2]

theorem readReplies_hist (P : Peer) : ∀ (cmd : List Command) (h : List Event),
    (readReplies P cmd h).2 = h ++ cmd.map readEvent := by
  intro cmd
  induction cmd with
  | nil => intro h; simp [readReplies]
  | cons v vs ih => intro h; simp [readReplies, ih]

theorem readReplies_length (P : Peer) : ∀ (cmd : List Command) (h : List Event),
    (readReplies P cmd h).1.length = cmd.length := by
  intro cmd
  induction cmd with
  | nil => intro h; simp [readReplies]
  | cons v vs ih => intro h; simp [readReplies, ih]

theorem readReplies_get (P : Peer) : ∀ (cmd : List Command) (h : List Event) (i : Nat)
    (hi : i < cmd.length),
    (readReplies P cmd h).1[i]? = some
      { cmd[i] with
        Response := some ⟨(ReadResponse (P.onReadResponse (h ++ (cmd.take i).map readEvent))
                            cmd[i].ExpectCode).1,
                          (ReadResponse (P.onReadResponse (h ++ (cmd.take i).map readEvent))
                            cmd[i].ExpectCode).2.1⟩,
        Error := (ReadResponse (P.onReadResponse (h ++ (cmd.take i).map readEvent))
                            cmd[i].ExpectCode).2.2 } := by
  intro cmd
  induction cmd with
  | nil => intro h i hi; simp at hi
  | cons v vs ih =>
    intro h i hi
    cases i with
    | zero => simp [readReplies]
    | succ i =>
      have hi2 : i < vs.length := by simpa using hi
      simp [readReplies, ih (h ++ [readEvent v]) i hi2]

theorem ReadResponse_nil_iff (r : Reply) (e : Int) (h1 : 100 ≤ e) (h2 : e < 1000) :
    (ReadResponse r e).2.2 = none ↔ (ReadResponse r e).1 = e := by
  cases r with
  | fail text => simp [ReadResponse]; omega
  | reply code message =>
    unfold ReadResponse
    by_cases hc : code < 100
    · simp [hc]; omega
    · have hm : codeMismatch e code = decide (code ≠ e) := by
        unfold codeMismatch
        have a1 : ¬ e < 10 := by omega
        have a2 : ¬ e < 100 := by omega
        simp [a1, a2, h1, h2]
      simp only [hc, if_false, hm]
      by_cases hce : code = e
      · simp [hce]
      · simp [hce]

theorem Exec_written (P : Peer) (c : Client) (cmd : List Command) (hne : cmd ≠ [])
    (hidle : c.tConn.idle)
    (hw : writeLines P cmd c.tConn.hist = (c.tConn.hist ++ cmd.map writeEvent, none)) :
    ∃ r last, Exec P c cmd = .ok r ∧
      (readReplies P cmd (c.tConn.hist ++ cmd.map writeEvent)).1.getLast? = some last ∧
      r.err = last.Error ∧
      r.cmd = (readReplies P cmd (c.tConn.hist ++ cmd.map writeEvent)).1 ∧
      r.c = { c with tConn :=
                { hist := c.tConn.hist ++ cmd.map writeEvent ++ cmd.map readEvent,
                  Pipeline := { id := c.tConn.Pipeline.id + 1,
                                request := c.tConn.Pipeline.id + 1,
                                response := c.tConn.Pipeline.id + 1 } } } := by
  obtain ⟨hq, hp⟩ := hidle
  have hlen := readReplies_length P cmd (c.tConn.hist ++ cmd.map writeEvent)
  have hne2 : (readReplies P cmd (c.tConn.hist ++ cmd.map writeEvent)).1 ≠ [] := by
    intro h0
    rw [h0] at hlen
    exact hne (List.length_eq_zero.mp hlen.symm)
  obtain ⟨last, hlast⟩ : ∃ last, (readReplies P cmd (c.tConn.hist ++ cmd.map writeEvent)).1.getLast?
      = some last := by
    cases hg : (readReplies P cmd (c.tConn.hist ++ cmd.map writeEvent)).1.getLast? with
    | none => exact absurd (List.getLast?_eq_none_iff.mp hg) hne2
    | some l => exact ⟨l, rfl⟩
  refine ⟨{ c := { c with tConn :=
                { hist := c.tConn.hist ++ cmd.map writeEvent ++ cmd.map readEvent,
                  Pipeline := { id := c.tConn.Pipeline.id + 1,
                                request := c.tConn.Pipeline.id + 1,
                                response := c.tConn.Pipeline.id + 1 } } },
             cmd := (readReplies P cmd (c.tConn.hist ++ cmd.map writeEvent)).1,
             err := last.Error }, last, ?_, hlast, rfl, rfl, rfl⟩
  simp [Exec, hq, hp, hw, hlast, readReplies_hist]

theorem Exec_ok_request (P : Peer) (c : Client) (cmd : List Command) (r : ExecResult)
    (hr : Exec P c cmd = .ok r) : c.tConn.Pipeline.request = c.tConn.Pipeline.id := by
  by_contra hq
  simp [Exec, hq] at hr

theorem Exec_ok_written_idle (P : Peer) (c : Client) (cmd : List Command) (r : ExecResult)
    (hr : Exec P c cmd = .ok r) (hw : (writeLines P cmd c.tConn.hist).2 = none) :
    c.tConn.idle := by
  have hq := Exec_ok_request P c cmd r hr
  refine ⟨hq, ?_⟩
  by_contra hp
  simp [Exec, hq, hw, hp] at hr

theorem Exec_ok_write_error (P : Peer) (c : Client) (cmd : List Command) (r : ExecResult)
    (hr : Exec P c cmd = .ok r) (e : GoError) (hw : (writeLines P cmd c.tConn.hist).2 = some e) :
    r.err = some e ∧ r.cmd = cmd ∧ r.c.tConn.hist = (writeLines P cmd c.tConn.hist).1 ∧
    r.c.Domain = c.Domain ∧ r.c.extensions = c.extensions := by
  have hq := Exec_ok_request P c cmd r hr
  simp [Exec, hq, hw] at hr
  subst hr
  exact ⟨rfl, rfl, rfl, rfl, rfl⟩

theorem readReplies_answered (P : Peer) : ∀ (cmd : List Command) (h : List Event),
    ∀ v ∈ (readReplies P cmd h).1, v.Response ≠ none := by
  intro cmd
  induction cmd with
  | nil => intro h v hv; simp [readReplies] at hv
  | cons a vs ih =>
    intro h v hv
    simp only [readReplies, List.mem_cons] at hv
    rcases hv with hv | hv
    · rw [hv]; simp
    · exact ih _ v hv

theorem getLast_eq_getElem_pred (cmd : List Command) (hne : cmd ≠ []) :
    ∃ hi : cmd.length - 1 < cmd.length, cmd[cmd.length - 1] = cmd.getLast hne := by
  have hpos : 0 < cmd.length := List.length_pos.mpr hne
  refine ⟨by omega, ?_⟩
  rw [List.getLast_eq_getElem]

/-- What `Exec` does with a batch whose request lines are all written, on an idle
pipeline. -/
theorem Exec_batch_spec (P : Peer) (c : Client) (cmd : List Command) (hne : cmd ≠ [])
    (hidle : c.tConn.idle)
    (hw : ∀ i (hi : i < cmd.length),
      P.onPrintfLine (c.tConn.hist ++ (cmd.take i).map writeEvent) cmd[i].Format cmd[i].Args
        = none) :
    ∃ r, Exec P c cmd = .ok r ∧
      r.c.tConn.hist = c.tConn.hist ++ cmd.map writeEvent ++ cmd.map readEvent ∧
      r.cmd.length = cmd.length ∧
      (∀ i (hi : i < cmd.length), r.cmd[i]? = some
        { cmd[i] with
          Response := some ⟨(batchReply P c.tConn.hist cmd i cmd[i]).1,
                            (batchReply P c.tConn.hist cmd i cmd[i]).2.1⟩,
          Error := (batchReply P c.tConn.hist cmd i cmd[i]).2.2 }) ∧
      r.err = (batchReply P c.tConn.hist cmd (cmd.length - 1) (cmd.getLast hne)).2.2 ∧
      (100 ≤ (cmd.getLast hne).ExpectCode → (cmd.getLast hne).ExpectCode < 1000 →
        (r.err = none ↔
          (batchReply P c.tConn.hist cmd (cmd.length - 1) (cmd.getLast hne)).1
            = (cmd.getLast hne).ExpectCode)) := by
  obtain ⟨r, last, hr, hlast, herr, hcmd, hc⟩ :=
    Exec_written P c cmd hne hidle (writeLines_ok P cmd c.tConn.hist hw)
  obtain ⟨hi, hget⟩ := getLast_eq_getElem_pred cmd hne
  have hlen := readReplies_length P cmd (c.tConn.hist ++ cmd.map writeEvent)
  have hl := readReplies_get P cmd (c.tConn.hist ++ cmd.map writeEvent) (cmd.length - 1) hi
  rw [List.getLast?_eq_getElem?, hlen, hl, hget] at hlast
  have herr2 : r.err
      = (batchReply P c.tConn.hist cmd (cmd.length - 1) (cmd.getLast hne)).2.2 := by
    rw [herr, ← Option.some.inj hlast]; rfl
  refine ⟨r, hr, by rw [hc], by rw [hcmd, hlen], ?_, herr2, ?_⟩
  · intro i hi
    rw [hcmd]
    exact readReplies_get P cmd (c.tConn.hist ++ cmd.map writeEvent) i hi
  · intro h1 h2
    rw [herr2]
    exact ReadResponse_nil_iff _ _ h1 h2

theorem writeLines_cases (P : Peer) : ∀ (cmd : List Command) (h : List Event),
    (∀ i (hi : i < cmd.length),
      P.onPrintfLine (h ++ (cmd.take i).map writeEvent) cmd[i].Format cmd[i].Args = none) ∨
    (∃ (k : Nat) (hk : k < cmd.length) (text : String),
      (∀ i (hi : i < k),
        P.onPrintfLine (h ++ (cmd.take i).map writeEvent) (cmd[i]).Format (cmd[i]).Args = none) ∧
      P.onPrintfLine (h ++ (cmd.take k).map writeEvent) cmd[k].Format cmd[k].Args = some text) := by
  intro cmd
  induction cmd with
  | nil => intro h; left; intro i hi; simp at hi
  | cons v vs ih =>
    intro h
    cases hw : P.onPrintfLine h v.Format v.Args with
    | some text =>
      right
      exact ⟨0, by simp, text, by intro i hi; omega, by simpa using hw⟩
    | none =>
      rcases ih (h ++ [writeEvent v]) with hall | ⟨k, hk, text, hb, hf⟩
      · left
        intro i hi
        cases i with
        | zero => simpa using hw
        | succ i => simpa using hall i (by simpa using hi)
      · right
        refine ⟨k + 1, by simpa using hk, text, ?_, by simpa using hf⟩
        intro i hi
        cases i with
        | zero => simpa using hw
        | succ i => simpa using hb i (by omega)

theorem Exec_returns (P : Peer) (c : Client) (cmd : List Command) (hne : cmd ≠ [])
    (hidle : c.tConn.idle) : ∃ r, Exec P c cmd = .ok r := by
  rcases writeLines_cases P cmd c.tConn.hist with hall | ⟨k, hk, text, hb, hf⟩
  · obtain ⟨r, _, hr, _⟩ := Exec_written P c cmd hne hidle (writeLines_ok P cmd _ hall)
    exact ⟨r, hr⟩
  · have hwl := writeLines_fail P cmd c.tConn.hist k hk text hb hf
    obtain ⟨hq, _⟩ := hidle
    simp [Exec, hq, hwl]

/-- C3 (amended): for a non-empty batch whose request lines are all written,
whenever `Exec` returns it has performed exactly one read per command after the
writes; the `i`-th command carries the `i`-th reply read (code, message and the
error of that read only); the value returned is the error of the last read; and
when the last expected code is a three-digit code that value is nil exactly when
the last reply code equals it.  On an idle pipeline `Exec` does return. -/
theorem Exec_batch_replies (P : Peer) (c : Client) (cmd : List Command) (hne : cmd ≠ [])
    (hw : ∀ i (hi : i < cmd.length),
      P.onPrintfLine (c.tConn.hist ++ (cmd.take i).map writeEvent) cmd[i].Format cmd[i].Args
        = none) :
    (∀ r, Exec P c cmd = .ok r →
      r.c.tConn.hist = c.tConn.hist ++ cmd.map writeEvent ++ cmd.map readEvent ∧
      r.cmd.length = cmd.length ∧
      (∀ i (hi : i < cmd.length), r.cmd[i]? = some
        { cmd[i] with
          Response := some ⟨(batchReply P c.tConn.hist cmd i cmd[i]).1,
                            (batchReply P c.tConn.hist cmd i cmd[i]).2.1⟩,
          Error := (batchReply P c.tConn.hist cmd i cmd[i]).2.2 }) ∧
      r.err = (batchReply P c.tConn.hist cmd (cmd.length - 1) (cmd.getLast hne)).2.2 ∧
      (100 ≤ (cmd.getLast hne).ExpectCode → (cmd.getLast hne).ExpectCode < 1000 →
        (r.err = none ↔
          (batchReply P c.tConn.hist cmd (cmd.length - 1) (cmd.getLast hne)).1
            = (cmd.getLast hne).ExpectCode))) ∧
    (c.tConn.idle → ∃ r, Exec P c cmd = .ok r) := by
  constructor
  · intro r hr
    have hidle := Exec_ok_written_idle P c cmd r hr
      (by rw [writeLines_ok P cmd c.tConn.hist hw])
    obtain ⟨r1, hr1, hprops⟩ := Exec_batch_spec P c cmd hne hidle hw
    rw [hr] at hr1
    cases Except.ok.inj hr1
    exact hprops
  · intro hidle
    obtain ⟨r1, hr1, _⟩ := Exec_batch_spec P c cmd hne hidle hw
    exact ⟨r1, hr1⟩

/-- C3 (counterexample): the one-command batch `AUTH LOGIN` with expected code 0,
answered with 334: `Exec` returns nil although the reply code 334 of the last
command differs from its expected code 0. -/
theorem Exec_expect_zero_returns_nil :
    (Exec (scriptPeer [Reply.reply 334 "VXNlcm5hbWU6"] none)
        (freshClient "example.org" "mail.example.org" (fun _ => none))
        [NewCommand 0 "AUTH LOGIN" []]).toOption.map
      (fun r => (r.err, r.cmd.map (fun v => (v.ExpectCode, v.Response.map (fun x => x.Code)))))
      = some (none, [(0, some 334)]) ∧ (334 : Int) ≠ 0 := by
  decide

/-- C3 (witness): the three commands of a submission, all written, answered 550,
250, 354 on a fresh client: `Exec` returns nil, the error of the last read. -/
theorem Exec_batch_replies_witness :
    (freshClient "example.org" "mail.example.org" (fun _ => none)).tConn.idle ∧
    ∃ r, Exec (scriptPeer [Reply.reply 550 "no", Reply.reply 250 "ok", Reply.reply 354 "go"] none)
        (freshClient "example.org" "mail.example.org" (fun _ => none))
        (mailCommands "a@example.com" "u@example.org") = .ok r ∧ r.err = none := by
  refine ⟨by decide, ?_⟩
  have h := Exec_batch_replies
    (scriptPeer [Reply.reply 550 "no", Reply.reply 250 "ok", Reply.reply 354 "go"] none)
    (freshClient "example.org" "mail.example.org" (fun _ => none))
    (mailCommands "a@example.com" "u@example.org") (by simp [mailCommands])
    (by intro i hi; simp [scriptPeer])
  obtain ⟨r, hr⟩ := h.2 (by decide)
  obtain ⟨_, _, _, herr, _⟩ := h.1 r hr
  exact ⟨r, hr, by rw [herr]; decide⟩

theorem Exec_ok_response_or_write_error (P : Peer) (c : Client) (cmd : List Command)
    (r : ExecResult) (hr : Exec P c cmd = .ok r) :
    ((∀ i (hi : i < cmd.length),
        P.onPrintfLine (c.tConn.hist ++ (cmd.take i).map writeEvent) cmd[i].Format cmd[i].Args
          = none) →
      r.cmd.length = cmd.length ∧ ∀ v ∈ r.cmd, v.Response ≠ none) ∧
    (∀ (k : Nat) (hk : k < cmd.length) (text : String),
      (∀ i (hi : i < k),
        P.onPrintfLine (c.tConn.hist ++ (cmd.take i).map writeEvent)
          (cmd[i]).Format (cmd[i]).Args = none) →
      P.onPrintfLine (c.tConn.hist ++ (cmd.take k).map writeEvent) cmd[k].Format cmd[k].Args
        = some text →
      r.err = some (.other text) ∧ r.cmd = cmd) := by
  constructor
  · intro hw
    have hwl := writeLines_ok P cmd c.tConn.hist hw
    have hidle := Exec_ok_written_idle P c cmd r hr (by rw [hwl])
    obtain ⟨hq, hp⟩ := hidle
    simp only [Exec, hq, hp, hwl, ne_eq, not_true_eq_false, if_false] at hr
    split at hr
    · exact absurd hr (by simp)
    · have := Except.ok.inj hr
      subst this
      exact ⟨readReplies_length P cmd _, readReplies_answered P cmd _⟩
  · intro k hk text hw hf
    have hwl := writeLines_fail P cmd c.tConn.hist k hk text hw hf
    obtain ⟨h1, h2, _⟩ := Exec_ok_write_error P c cmd r hr (.other text) (by rw [hwl])
    exact ⟨h1, h2⟩

/-- C10 (amended): whenever `Exec` returns: if every request line was written, every
command of the batch has a non-nil `Response`; if writing line `k` failed after
the lines before it were written, `Exec` returns that write error and hands the
commands back as they were passed in (no `Response`, no `Error` is set).  On an
idle pipeline `Exec` does return for a non-empty batch. -/
theorem Exec_response_or_write_error (P : Peer) (c : Client) (cmd : List Command) :
    (∀ r, Exec P c cmd = .ok r →
      ((∀ i (hi : i < cmd.length),
          P.onPrintfLine (c.tConn.hist ++ (cmd.take i).map writeEvent) cmd[i].Format cmd[i].Args
            = none) →
        r.cmd.length = cmd.length ∧ ∀ v ∈ r.cmd, v.Response ≠ none) ∧
      (∀ (k : Nat) (hk : k < cmd.length) (text : String),
        (∀ i (hi : i < k),
          P.onPrintfLine (c.tConn.hist ++ (cmd.take i).map writeEvent)
            (cmd[i]).Format (cmd[i]).Args = none) →
        P.onPrintfLine (c.tConn.hist ++ (cmd.take k).map writeEvent) cmd[k].Format cmd[k].Args
          = some text →
        r.err = some (.other text) ∧ r.cmd = cmd)) ∧
    (c.tConn.idle → cmd ≠ [] → ∃ r, Exec P c cmd = .ok r) :=
  ⟨fun r hr => Exec_ok_response_or_write_error P c cmd r hr,
   fun hidle hne => Exec_returns P c cmd hne hidle⟩

/-- C10 (counterexample): the second of three request lines cannot be written;
`Exec` returns the write error and every command is left with a nil `Response`
and a nil `Error`. -/
theorem Exec_write_failure_leaves_commands_bare :
    (Exec (scriptPeer [] (some 1))
        (freshClient "example.org" "mail.example.org" (fun _ => none))
        (mailCommands "a@example.com" "u@example.org")).toOption.map
      (fun r => (r.err, r.cmd.map (fun v => (v.Response, v.Error))))
      = some (some (GoError.other "broken pipe"), [(none, none), (none, none), (none, none)]) := by
  decide

/-- C10 (witness): a one-command batch whose line is written and whose reply is
read: the call returns `noopResult`, and its command has a `Response`. -/
theorem Exec_response_or_write_error_witness :
    Exec (scriptPeer [Reply.reply 250 "ok"] none)
        (freshClient "example.org" "mail.example.org" (fun _ => none))
        [NewCommand 250 "NOOP" []] = .ok noopResult ∧
      noopResult.cmd.length = 1 ∧
      (⟨250, "NOOP", [], some ⟨250, "ok"⟩, none⟩ : Command).Response ≠ none :=
  ⟨rfl,
   (((Exec_response_or_write_error (scriptPeer [Reply.reply 250 "ok"] none)
      (freshClient "example.org" "mail.example.org" (fun _ => none))
      [NewCommand 250 "NOOP" []]).1 noopResult rfl).1
        (by intro i hi; simp [scriptPeer])).1,
   (((Exec_response_or_write_error (scriptPeer [Reply.reply 250 "ok"] none)
      (freshClient "example.org" "mail.example.org" (fun _ => none))
      [NewCommand 250 "NOOP" []]).1 noopResult rfl).1
        (by intro i hi; simp [scriptPeer])).2 _ (by simp [noopResult])⟩

/-! ## One command at a time -/

theorem exchangeError_none (P : Peer) (h : List Event) (v : Command)
    (he : exchangeError P h v = none) :
    P.onPrintfLine h v.Format v.Args = none ∧ exchangeEvents P h v = [writeEvent v, readEvent v] := by
  unfold exchangeError at he
  unfold exchangeEvents
  cases hp : P.onPrintfLine h v.Format v.Args with
  | none => simp
  | some t => simp [hp] at he

theorem Exec_single (P : Peer) (c : Client) (v : Command) (hidle : c.tConn.idle) :
    ∃ r, Exec P c [v] = .ok r ∧
      r.err = exchangeError P c.tConn.hist v ∧
      r.c.tConn.hist = c.tConn.hist ++ exchangeEvents P c.tConn.hist v ∧
      (r.err = none → r.c.tConn.idle) ∧
      r.c.Domain = c.Domain ∧ r.c.extensions = c.extensions ∧
      (∀ text, P.onPrintfLine c.tConn.hist v.Format v.Args = some text → r.cmd = [v]) ∧
      (r.cmd.headD v).Error = (match P.onPrintfLine c.tConn.hist v.Format v.Args with
                               | some _ => v.Error
                               | none => r.err) := by
  obtain ⟨hq, hp⟩ := hidle
  cases hw : P.onPrintfLine c.tConn.hist v.Format v.Args with
  | some text =>
    refine ⟨{ c := { c with tConn := { hist := c.tConn.hist ++ [writeEvent v],
                                        Pipeline := { c.tConn.Pipeline with
                                                      id := c.tConn.Pipeline.id + 1 } } },
              cmd := [v], err := some (.other text) }, ?_, ?_, ?_, ?_, rfl, rfl, ?_, ?_⟩
    · simp [Exec, hq, writeLines, hw]
    · simp [exchangeError, hw]
    · simp [exchangeEvents, hw]
    · intro h; simp at h
    · intro t _; rfl
    · simp
  | none =>
    refine ⟨{ c := { c with tConn := { hist := c.tConn.hist ++ [writeEvent v, readEvent v],
                                        Pipeline := { id := c.tConn.Pipeline.id + 1,
                                                      request := c.tConn.Pipeline.id + 1,
                                                      response := c.tConn.Pipeline.id + 1 } } },
              cmd := (readReplies P [v] (c.tConn.hist ++ [writeEvent v])).1,
              err := (ReadResponse (P.onReadResponse (c.tConn.hist ++ [writeEvent v]))
                        v.ExpectCode).2.2 }, ?_, ?_, ?_, ?_, rfl, rfl, ?_, ?_⟩
    · simp [Exec, hq, hp, writeLines, hw, readReplies]
    · simp [exchangeError, hw]
    · simp [exchangeEvents, hw]
    · intro _; exact ⟨rfl, rfl⟩
    · intro t ht; simp at ht
    · simp [readReplies]

theorem Exec_single_ok (P : Peer) (c : Client) (v : Command) (r : ExecResult)
    (hr : Exec P c [v] = .ok r) :
    r.err = exchangeError P c.tConn.hist v ∧
    r.c.tConn.hist = c.tConn.hist ++ exchangeEvents P c.tConn.hist v ∧
    (r.err = none → r.c.tConn.idle) ∧
    r.c.Domain = c.Domain ∧ r.c.extensions = c.extensions ∧
    (∀ text, P.onPrintfLine c.tConn.hist v.Format v.Args = some text → r.cmd = [v]) ∧
    (r.cmd.headD v).Error = (match P.onPrintfLine c.tConn.hist v.Format v.Args with
                             | some _ => v.Error
                             | none => r.err) := by
  cases hw : P.onPrintfLine c.tConn.hist v.Format v.Args with
  | some text =>
    have hwl : (writeLines P [v] c.tConn.hist).2 = some (.other text) := by
      simp [writeLines, hw]
    obtain ⟨h1, h2, h3, h4, h5⟩ := Exec_ok_write_error P c [v] r hr _ hwl
    refine ⟨?_, ?_, ?_, h4, h5, fun _ _ => h2, ?_⟩
    · simp [h1, exchangeError, hw]
    · simp [h3, exchangeEvents, writeLines, hw]
    · intro h; rw [h1] at h; simp at h
    · simp [h2]
  | none =>
    have hwl : (writeLines P [v] c.tConn.hist).2 = none := by
      simp [writeLines, hw]
    have hidle := Exec_ok_written_idle P c [v] r hr hwl
    obtain ⟨r1, hr1, h1, h2, h3, h4, h5, h6, h7⟩ := Exec_single P c v hidle
    rw [hr] at hr1
    cases Except.ok.inj hr1
    rw [hw] at h7
    exact ⟨h1, h2, h3, h4, h5, by intro t ht; simp at ht, h7⟩

theorem execEach_returns (P : Peer) : ∀ (cmds : List Command) (c : Client), c.tConn.idle →
    ∃ x, execEach P c cmds = .ok x := by
  intro cmds
  induction cmds with
  | nil => intro c _; exact ⟨_, rfl⟩
  | cons v vs ih =>
    intro c hidle
    obtain ⟨r, hr, _, _, hid, _⟩ := Exec_single P c v hidle
    cases he : r.err with
    | some err => simp [execEach, hr, he]
    | none =>
      obtain ⟨x, hx⟩ := ih r.c (hid he)
      simp [execEach, hr, he, hx]

theorem execEach_ok_spec (P : Peer) : ∀ (cmds : List Command) (c c1 : Client)
    (cmds1 : List Command) (e : Option GoError),
    execEach P c cmds = .ok (c1, cmds1, e) →
      cmds1.length = cmds.length ∧ c1.Domain = c.Domain ∧ c1.extensions = c.extensions ∧
      (e = none →
        c1.tConn.hist = c.tConn.hist ++ exchangeHist cmds ∧
        ∀ j (hj : j < cmds.length),
          exchangeError P (c.tConn.hist ++ exchangeHist (cmds.take j)) cmds[j] = none) ∧
      (∀ err, e = some err →
        ∃ (k : Nat) (hk : k < cmds.length),
          (∀ j (hj : j < k),
            exchangeError P (c.tConn.hist ++ exchangeHist (cmds.take j)) (cmds[j]) = none) ∧
          exchangeError P (c.tConn.hist ++ exchangeHist (cmds.take k)) cmds[k] = some err ∧
          c1.tConn.hist = c.tConn.hist ++ exchangeHist (cmds.take k)
            ++ exchangeEvents P (c.tConn.hist ++ exchangeHist (cmds.take k)) cmds[k] ∧
          (∀ j, k < j → cmds1[j]? = cmds[j]?) ∧
          ((cmds1[k]?).map (fun v => v.Error) = some (some err) ∨ cmds1[k]? = cmds[k]?)) := by
  intro cmds
  induction cmds with
  | nil =>
    intro c c1 cmds1 e h
    simp only [execEach, Except.ok.injEq, Prod.mk.injEq] at h
    obtain ⟨rfl, rfl, rfl⟩ := h
    exact ⟨rfl, rfl, rfl, fun _ => ⟨by simp [exchangeHist], by simp⟩, by intro err h; simp at h⟩
  | cons v vs ih =>
    intro c c1 cmds1 e h
    cases hE : Exec P c [v] with
    | error x => simp [execEach, hE] at h
    | ok r =>
      obtain ⟨herr, hhist, _, hdom, hext, hcmdw, hcmde⟩ := Exec_single_ok P c v r hE
      cases he : r.err with
      | some err =>
        simp only [execEach, hE, he, Except.ok.injEq, Prod.mk.injEq] at h
        obtain ⟨rfl, rfl, rfl⟩ := h
        refine ⟨by simp, hdom, hext, by intro h; simp at h, ?_⟩
        intro err2 h2
        have h3 : err = err2 := by simpa using h2
        subst h3
        refine ⟨0, by simp, by intro j hj; omega, ?_, ?_, ?_, ?_⟩
        · simpa [exchangeHist, he] using herr.symm
        · simpa [exchangeHist] using hhist
        · intro j hj
          cases j with
          | zero => omega
          | succ j => simp
        · cases hw : P.onPrintfLine c.tConn.hist v.Format v.Args with
          | some text => right; simp [hcmdw text hw]
          | none =>
            left
            rw [hw] at hcmde
            simp only at hcmde
            rw [he] at hcmde
            simpa using hcmde
      | none =>
        rw [he] at herr
        obtain ⟨hw, hev⟩ := exchangeError_none P c.tConn.hist v herr.symm
        rw [hev] at hhist
        cases hrest : execEach P r.c vs with
        | error x => simp [execEach, hE, he, hrest] at h
        | ok x =>
          obtain ⟨c2, vs2, e2⟩ := x
          simp only [execEach, hE, he, hrest, Except.ok.injEq, Prod.mk.injEq] at h
          obtain ⟨rfl, rfl, rfl⟩ := h
          obtain ⟨hlen, hdom1, hext1, hok, hbad⟩ := ih r.c c2 vs2 e2 hrest
          refine ⟨by simp [hlen], by rw [hdom1, hdom], by rw [hext1, hext], ?_, ?_⟩
          · intro hen
            obtain ⟨h1, h3⟩ := hok hen
            refine ⟨by rw [h1, hhist]; simp [exchangeHist], ?_⟩
            intro j hj
            cases j with
            | zero => simpa [exchangeHist] using herr.symm
            | succ j =>
              have := h3 j (by simpa using hj)
              rw [hhist] at this
              simpa [exchangeHist] using this
          · intro err hes
            obtain ⟨k, hk, h1, h2, h3, h4, h5⟩ := hbad err hes
            refine ⟨k + 1, by simpa using hk, ?_, ?_, ?_, ?_, ?_⟩
            · intro j hj
              cases j with
              | zero => simpa [exchangeHist] using herr.symm
              | succ j =>
                have := h1 j (by omega)
                rw [hhist] at this
                simpa [exchangeHist] using this
            · rw [hhist] at h2
              simpa [exchangeHist] using h2
            · rw [hhist] at h3
              simpa [exchangeHist] using h3
            · intro j hj
              cases j with
              | zero => omega
              | succ j => simpa using h4 j (by omega)
            · simpa using h5

/-! ## Submission -/

theorem finish_fields (m : Mail) (s t : Int) :
    (finish m s t).From = m.From ∧ (finish m s t).To = m.To ∧
    (finish m s t).Subject = m.Subject ∧ (finish m s t).Body = m.Body ∧
    (finish m s t).Commands = m.Commands ∧ (finish m s t).Error = m.Error ∧
    (finish m s t).Size = len m.Body ∧ (finish m s t).Time = Processing s t ∧
    (finish m s t).Date = t := by
  cases h : m.Error with
  | none => simp [finish, h]
  | some e => cases e <;> simp [finish, h]

theorem finish_stat (m : Mail) (s t : Int) (hs : m.Stat = "sent") :
    ((finish m s t).Stat = "sent" ↔ m.Error = none) ∧
    ((finish m s t).Stat = "bounce" ↔ m.Error ≠ none) := by
  cases h : m.Error with
  | none => simp [finish, h, hs]
  | some e => cases e <;> simp [finish, h]

theorem sendData_fields (P : Peer) (c : Client) (m : Mail) :
    (sendData P c m).2.From = m.From ∧ (sendData P c m).2.To = m.To ∧
    (sendData P c m).2.Subject = m.Subject ∧ (sendData P c m).2.Body = m.Body ∧
    (sendData P c m).2.Commands = m.Commands ∧ (sendData P c m).2.Stat = m.Stat ∧
    (sendData P c m).2.Error = dataError P c.tConn.hist m.Content := by
  cases h1 : P.onDotWrite c.tConn.hist m.Content with
  | some t => simp [sendData, dataError, h1]
  | none =>
    cases h2 : P.onDotClose (c.tConn.hist ++ [Event.dotWrite m.Content]) with
    | some t => simp [sendData, dataError, h1, h2]
    | none => simp [sendData, dataError, h1, h2]

theorem sendData_hist (P : Peer) (c : Client) (m : Mail) :
    (sendData P c m).1.tConn.hist = c.tConn.hist ++ dataEvents P c.tConn.hist m.Content := by
  cases h1 : P.onDotWrite c.tConn.hist m.Content with
  | some t => simp [sendData, dataEvents, h1]
  | none =>
    cases h2 : P.onDotClose (c.tConn.hist ++ [Event.dotWrite m.Content]) with
    | some t => simp [sendData, dataEvents, h1, h2]
    | none => simp [sendData, dataEvents, h1, h2]

/-- What `MailSend` returns on the sequential branch, given the outcome of the
loop over the commands. -/
theorem MailSend_sequential (P : Peer) (c : Client) (s t : Int)
    (sender user subject body : String) (hp : c.IsExtension "PIPELINING" = false)
    (c1 : Client) (cmds : List Command) (e : Option GoError)
    (hrun : execEach P c (mailCommands sender (user ++ "@" ++ c.Domain)) = .ok (c1, cmds, e)) :
    ∃ c2 m, MailSend P c s t sender user subject body = .ok (c2, m) ∧
      m.From = sender ∧ m.To = user ++ "@" ++ c.Domain ∧ m.Subject = subject ∧ m.Body = body ∧
      m.Commands = cmds ∧ m.Size = len body ∧ m.Time = Processing s t ∧
      (m.Stat = "sent" ↔ m.Error = none) ∧ (m.Stat = "bounce" ↔ m.Error ≠ none) ∧
      (∀ err, e = some err → m.Error = some err ∧ c2 = c1) ∧
      (e = none → m.Error = dataError P c1.tConn.hist
          (newMail c sender user subject body).Content ∧
        c2.tConn.hist = c1.tConn.hist
          ++ dataEvents P c1.tConn.hist (newMail c sender user subject body).Content) := by
  cases e with
  | some err =>
    refine ⟨c1, finish { newMail c sender user subject body with
                         Commands := cmds, Error := some err } s t, ?_⟩
    obtain ⟨f1, f2, f3, f4, f5, f6, f7, f8, _⟩ :=
      finish_fields { newMail c sender user subject body with
                      Commands := cmds, Error := some err } s t
    obtain ⟨g1, g2⟩ :=
      finish_stat { newMail c sender user subject body with
                    Commands := cmds, Error := some err } s t rfl
    refine ⟨?_, f1, f2, f3, f4, f5, f7, f8, ?_, ?_, ?_, ?_⟩
    · simp [MailSend, hp, newMail, hrun]
    · rw [g1, f6]
    · rw [g2, f6]
    · intro err2 h2
      rw [f6]
      exact ⟨h2, rfl⟩
    · intro h; simp at h
  | none =>
    refine ⟨(sendData P c1 { newMail c sender user subject body with
                             Commands := cmds, Error := none }).1,
            finish (sendData P c1 { newMail c sender user subject body with
                             Commands := cmds, Error := none }).2 s t, ?_⟩
    obtain ⟨d1, d2, d3, d4, d5, d6, d7⟩ :=
      sendData_fields P c1 { newMail c sender user subject body with
                             Commands := cmds, Error := none }
    obtain ⟨f1, f2, f3, f4, f5, f6, f7, f8, _⟩ :=
      finish_fields (sendData P c1 { newMail c sender user subject body with
                             Commands := cmds, Error := none }).2 s t
    obtain ⟨g1, g2⟩ :=
      finish_stat (sendData P c1 { newMail c sender user subject body with
                             Commands := cmds, Error := none }).2 s t (by rw [d6]; rfl)
    refine ⟨?_, by rw [f1, d1]; rfl, by rw [f2, d2]; rfl, by rw [f3, d3]; rfl,
      by rw [f4, d4]; rfl, by rw [f5, d5], by rw [f7, d4]; rfl, f8, ?_, ?_, ?_, ?_⟩
    · simp [MailSend, hp, newMail, hrun]
    · rw [g1, f6]
    · rw [g2, f6]
    · intro err h; simp at h
    · intro _
      exact ⟨by rw [f6, d7]; rfl, sendData_hist P _ _⟩

/-- What `MailSend` returns on the pipelined branch, given the outcome of the one
`Exec` over the three commands. -/
theorem MailSend_pipelined (P : Peer) (c : Client) (s t : Int)
    (sender user subject body : String) (hp : c.IsExtension "PIPELINING" = true)
    (r : ExecResult)
    (hrun : Exec P c (mailCommands sender (user ++ "@" ++ c.Domain)) = .ok r) :
    ∃ c2 m, MailSend P c s t sender user subject body = .ok (c2, m) ∧
      m.From = sender ∧ m.To = user ++ "@" ++ c.Domain ∧ m.Subject = subject ∧ m.Body = body ∧
      m.Commands = r.cmd ∧ m.Size = len body ∧ m.Time = Processing s t ∧
      (m.Stat = "sent" ↔ m.Error = none) ∧ (m.Stat = "bounce" ↔ m.Error ≠ none) ∧
      (∀ err, r.err = some err → m.Error = some err ∧ c2 = r.c) ∧
      (r.err = none → m.Error = dataError P r.c.tConn.hist
          (newMail c sender user subject body).Content ∧
        c2.tConn.hist = r.c.tConn.hist
          ++ dataEvents P r.c.tConn.hist (newMail c sender user subject body).Content) := by
  cases he : r.err with
  | some err =>
    refine ⟨r.c, finish { newMail c sender user subject body with
                         Commands := r.cmd, Error := some err } s t, ?_⟩
    obtain ⟨f1, f2, f3, f4, f5, f6, f7, f8, _⟩ :=
      finish_fields { newMail c sender user subject body with
                      Commands := r.cmd, Error := some err } s t
    obtain ⟨g1, g2⟩ :=
      finish_stat { newMail c sender user subject body with
                    Commands := r.cmd, Error := some err } s t rfl
    refine ⟨?_, f1, f2, f3, f4, f5, f7, f8, ?_, ?_, ?_, ?_⟩
    · simp [MailSend, hp, newMail, hrun, he]
    · rw [g1, f6]
    · rw [g2, f6]
    · intro err2 h2
      rw [f6]
      exact ⟨h2, rfl⟩
    · intro h; simp at h
  | none =>
    refine ⟨(sendData P r.c { newMail c sender user subject body with
                             Commands := r.cmd, Error := none }).1,
            finish (sendData P r.c { newMail c sender user subject body with
                             Commands := r.cmd, Error := none }).2 s t, ?_⟩
    obtain ⟨d1, d2, d3, d4, d5, d6, d7⟩ :=
      sendData_fields P r.c { newMail c sender user subject body with
                             Commands := r.cmd, Error := none }
    obtain ⟨f1, f2, f3, f4, f5, f6, f7, f8, _⟩ :=
      finish_fields (sendData P r.c { newMail c sender user subject body with
                             Commands := r.cmd, Error := none }).2 s t
    obtain ⟨g1, g2⟩ :=
      finish_stat (sendData P r.c { newMail c sender user subject body with
                             Commands := r.cmd, Error := none }).2 s t (by rw [d6]; rfl)
    refine ⟨?_, by rw [f1, d1]; rfl, by rw [f2, d2]; rfl, by rw [f3, d3]; rfl,
      by rw [f4, d4]; rfl, by rw [f5, d5], by rw [f7, d4]; rfl, f8, ?_, ?_, ?_, ?_⟩
    · simp [MailSend, hp, newMail, hrun, he]
    · rw [g1, f6]
    · rw [g2, f6]
    · intro err h; simp at h
    · intro _
      exact ⟨by rw [f6, d7]; rfl, sendData_hist P _ _⟩

theorem MailSend_returns (P : Peer) (c : Client) (s t : Int)
    (sender user subject body : String) (hidle : c.tConn.idle) :
    ∃ c2 m, MailSend P c s t sender user subject body = .ok (c2, m) := by
  cases hp : c.IsExtension "PIPELINING" with
  | false =>
    obtain ⟨⟨c1, cmds, e⟩, hrun⟩ :=
      execEach_returns P (mailCommands sender (user ++ "@" ++ c.Domain)) c hidle
    obtain ⟨c2, m, h0, _⟩ :=
      MailSend_sequential P c s t sender user subject body hp c1 cmds e hrun
    exact ⟨c2, m, h0⟩
  | true =>
    obtain ⟨r, hrun⟩ :=
      Exec_returns P c (mailCommands sender (user ++ "@" ++ c.Domain)) (by simp [mailCommands]) hidle
    obtain ⟨c2, m, h0, _⟩ :=
      MailSend_pipelined P c s t sender user subject body hp r hrun
    exact ⟨c2, m, h0⟩

/-- Whenever `MailSend` returns on the sequential branch, the loop over the commands
returned, and the envelope is derived from its outcome. -/
theorem MailSend_ok_sequential (P : Peer) (c : Client) (s t : Int)
    (sender user subject body : String) (hp : c.IsExtension "PIPELINING" = false)
    (c2 : Client) (m : Mail)
    (hr : MailSend P c s t sender user subject body = .ok (c2, m)) :
    ∃ c1 cmds e,
      execEach P c (mailCommands sender (user ++ "@" ++ c.Domain)) = .ok (c1, cmds, e) ∧
      m.From = sender ∧ m.To = user ++ "@" ++ c.Domain ∧ m.Subject = subject ∧ m.Body = body ∧
      m.Commands = cmds ∧ m.Size = len body ∧ m.Time = Processing s t ∧
      (m.Stat = "sent" ↔ m.Error = none) ∧ (m.Stat = "bounce" ↔ m.Error ≠ none) ∧
      (∀ err, e = some err → m.Error = some err ∧ c2 = c1) ∧
      (e = none → m.Error = dataError P c1.tConn.hist
          (newMail c sender user subject body).Content ∧
        c2.tConn.hist = c1.tConn.hist
          ++ dataEvents P c1.tConn.hist (newMail c sender user subject body).Content) := by
  cases hrun : execEach P c (mailCommands sender (user ++ "@" ++ c.Domain)) with
  | error x => simp [MailSend, hp, newMail, hrun] at hr
  | ok x =>
    obtain ⟨c1, cmds, e⟩ := x
    obtain ⟨c3, m3, h0, hprops⟩ :=
      MailSend_sequential P c s t sender user subject body hp c1 cmds e hrun
    rw [hr] at h0
    cases Except.ok.inj h0
    exact ⟨c1, cmds, e, rfl, hprops⟩

/-- Whenever `MailSend` returns on the pipelined branch, the one `Exec` returned, and
the envelope is derived from its outcome. -/
theorem MailSend_ok_pipelined (P : Peer) (c : Client) (s t : Int)
    (sender user subject body : String) (hp : c.IsExtension "PIPELINING" = true)
    (c2 : Client) (m : Mail)
    (hr : MailSend P c s t sender user subject body = .ok (c2, m)) :
    ∃ r, Exec P c (mailCommands sender (user ++ "@" ++ c.Domain)) = .ok r ∧
      m.From = sender ∧ m.To = user ++ "@" ++ c.Domain ∧ m.Subject = subject ∧ m.Body = body ∧
      m.Commands = r.cmd ∧ m.Size = len body ∧ m.Time = Processing s t ∧
      (m.Stat = "sent" ↔ m.Error = none) ∧ (m.Stat = "bounce" ↔ m.Error ≠ none) ∧
      (∀ err, r.err = some err → m.Error = some err ∧ c2 = r.c) ∧
      (r.err = none → m.Error = dataError P r.c.tConn.hist
          (newMail c sender user subject body).Content ∧
        c2.tConn.hist = r.c.tConn.hist
          ++ dataEvents P r.c.tConn.hist (newMail c sender user subject body).Content) := by
  cases hrun : Exec P c (mailCommands sender (user ++ "@" ++ c.Domain)) with
  | error x => simp [MailSend, hp, newMail, hrun] at hr
  | ok r =>
    obtain ⟨c3, m3, h0, hprops⟩ :=
      MailSend_pipelined P c s t sender user subject body hp r hrun
    rw [hr] at h0
    cases Except.ok.inj h0
    exact ⟨r, rfl, hprops⟩

/-- Whenever `MailSend` returns, the envelope carries the inputs, the size of the
body and the elapsed time, and its `Stat` tells whether it has an `Error`. -/
theorem MailSend_ok_fields (P : Peer) (c : Client) (s t : Int)
    (sender user subject body : String) (c2 : Client) (m : Mail)
    (hr : MailSend P c s t sender user subject body = .ok (c2, m)) :
    m.From = sender ∧ m.To = user ++ "@" ++ c.Domain ∧ m.Subject = subject ∧ m.Body = body ∧
    m.Size = len body ∧ m.Time = Processing s t ∧
    (m.Stat = "sent" ↔ m.Error = none) ∧ (m.Stat = "bounce" ↔ m.Error ≠ none) := by
  cases hp : c.IsExtension "PIPELINING" with
  | false =>
    obtain ⟨_, _, _, _, h1, h2, h3, h4, _, h6, h7, h8, h9, _⟩ :=
      MailSend_ok_sequential P c s t sender user subject body hp c2 m hr
    exact ⟨h1, h2, h3, h4, h6, h7, h8, h9⟩
  | true =>
    obtain ⟨_, _, h1, h2, h3, h4, _, h6, h7, h8, h9, _⟩ :=
      MailSend_ok_pipelined P c s t sender user subject body hp c2 m hr
    exact ⟨h1, h2, h3, h4, h6, h7, h8, h9⟩

theorem Processing_exact (s t : Int) (h0 : 0 ≤ s) (h1 : s ≤ t) (h2 : t < 2 ^ 63) :
    Processing s t = (t - s) / 1000000 ∧ 0 ≤ Processing s t := by
  have hsub : Sub t s = t - s := by
    unfold Sub minDuration maxDuration
    have a : ¬ (t - s < -(2 ^ 63)) := by omega
    have b : ¬ (2 ^ 63 - 1 < t - s) := by omega
    rw [if_neg a, if_neg b]
  have hnn : (0 : Int) ≤ t - s := by omega
  unfold Processing
  rw [hsub, Int.tdiv_eq_ediv hnn (by norm_num)]
  exact ⟨rfl, Int.ediv_nonneg hnn (by norm_num)⟩

/-- C6: for clock readings `0 ≤ sTime ≤ eTime < 2^63` (nanoseconds of the monotonic
clock), every sender, user, subject, body and every peer: whenever `MailSend`
returns, the envelope's `Size` is `len(body)` and its `Time` is
`Processing(sTime, eTime)`, which is `(eTime - sTime) / 1000000` and is not
negative; and on an idle pipeline `MailSend` does return an envelope. -/
theorem MailSend_size_and_time (P : Peer) (c : Client) (sTime eTime : Int)
    (sender user subject body : String)
    (h0 : 0 ≤ sTime) (h1 : sTime ≤ eTime) (h2 : eTime < 2 ^ 63) :
    (∀ c2 m, MailSend P c sTime eTime sender user subject body = .ok (c2, m) →
      m.Size = len body ∧ m.Time = Processing sTime eTime ∧
      m.Time = (eTime - sTime) / 1000000 ∧ 0 ≤ m.Time) ∧
    (c.tConn.idle → ∃ c2 m, MailSend P c sTime eTime sender user subject body = .ok (c2, m)) := by
  obtain ⟨p1, p2⟩ := Processing_exact sTime eTime h0 h1 h2
  refine ⟨?_, MailSend_returns P c sTime eTime sender user subject body⟩
  intro c2 m hr
  obtain ⟨_, _, _, _, hsize, htime, _⟩ :=
    MailSend_ok_fields P c sTime eTime sender user subject body c2 m hr
  exact ⟨hsize, htime, by rw [htime, p1], by rw [htime]; exact p2⟩

theorem Content_eq (m : Mail) :
    m.Content = "From:" ++ m.From ++ "\r\nTo:" ++ m.To ++ "\r\nSubject:" ++ m.Subject ++ "\r\n"
      ++ m.Body ++ "\r\n" := by
  unfold Mail.Content
  apply String.ext
  simp [String.data_append]

/-- C8: the envelope `MailSend(from, user, subject, body)` builds has
`To = user ++ "@" ++ Domain` and content
`"From:" ++ from ++ "\r\nTo:" ++ To ++ "\r\nSubject:" ++ subject ++ "\r\n" ++ body ++ "\r\n"`;
whenever `MailSend` returns, the returned envelope has that `To` and that
content and its `From`, `Subject` and `Body` are the inputs; and on an idle
pipeline `MailSend` does return. -/
theorem MailSend_content_roundtrip (P : Peer) (c : Client) (sTime eTime : Int)
    (sender user subject body : String) :
    ((newMail c sender user subject body).To = user ++ "@" ++ c.Domain ∧
      (newMail c sender user subject body).Content
        = "From:" ++ sender ++ "\r\nTo:" ++ (user ++ "@" ++ c.Domain) ++ "\r\nSubject:"
          ++ subject ++ "\r\n" ++ body ++ "\r\n") ∧
    (∀ c2 m, MailSend P c sTime eTime sender user subject body = .ok (c2, m) →
      m.To = user ++ "@" ++ c.Domain ∧
      m.From = sender ∧ m.Subject = subject ∧ m.Body = body ∧
      m.Content = "From:" ++ sender ++ "\r\nTo:" ++ (user ++ "@" ++ c.Domain) ++ "\r\nSubject:"
        ++ subject ++ "\r\n" ++ body ++ "\r\n") ∧
    (c.tConn.idle → ∃ c2 m, MailSend P c sTime eTime sender user subject body = .ok (c2, m)) := by
  refine ⟨⟨rfl, ?_⟩, ?_, MailSend_returns P c sTime eTime sender user subject body⟩
  · rw [Content_eq]; rfl
  · intro c2 m hr
    obtain ⟨hf, ht, hs, hb, _⟩ :=
      MailSend_ok_fields P c sTime eTime sender user subject body c2 m hr
    refine ⟨ht, hf, hs, hb, ?_⟩
    rw [Content_eq, hf, ht, hs, hb]

theorem Exec_ok_pipelined_error (P : Peer) (c : Client) (cmd : List Command) (hne : cmd ≠ [])
    (r : ExecResult) (hr : Exec P c cmd = .ok r) :
    (r.err = none ↔
      (∀ i (hi : i < cmd.length),
        P.onPrintfLine (c.tConn.hist ++ (cmd.take i).map writeEvent) cmd[i].Format cmd[i].Args
          = none) ∧
      (batchReply P c.tConn.hist cmd (cmd.length - 1) (cmd.getLast hne)).2.2 = none) ∧
    (r.err = none →
      r.c.tConn.hist = c.tConn.hist ++ cmd.map writeEvent ++ cmd.map readEvent) := by
  rcases writeLines_cases P cmd c.tConn.hist with hall | ⟨k, hk, text, hb, hf⟩
  · have hidle := Exec_ok_written_idle P c cmd r hr
      (by rw [writeLines_ok P cmd c.tConn.hist hall])
    obtain ⟨r1, hr1, hh, _, _, herr, _⟩ := Exec_batch_spec P c cmd hne hidle hall
    rw [hr] at hr1
    cases Except.ok.inj hr1
    refine ⟨?_, fun _ => hh⟩
    rw [herr]
    exact ⟨fun h => ⟨hall, h⟩, fun h => h.2⟩
  · have hwl := writeLines_fail P cmd c.tConn.hist k hk text hb hf
    obtain ⟨h1, _⟩ := Exec_ok_write_error P c cmd r hr (.other text) (by rw [hwl])
    refine ⟨⟨?_, ?_⟩, ?_⟩
    · intro h; rw [h1] at h; simp at h
    · intro h
      have := h.1 k hk
      rw [hf] at this
      simp at this
    · intro h; rw [h1] at h; simp at h

theorem MailSend_ok_stat (P : Peer) (c : Client) (sTime eTime : Int)
    (sender user subject body : String) (c2 : Client) (m : Mail)
    (hr : MailSend P c sTime eTime sender user subject body = .ok (c2, m)) :
    (m.Stat = "sent" ∨ m.Stat = "bounce") ∧
    (c.IsExtension "PIPELINING" = false →
      (m.Stat = "sent" ↔ sequentialClean P c sender user subject body)) ∧
    (c.IsExtension "PIPELINING" = true →
      (m.Stat = "sent" ↔ pipelinedClean P c sender user subject body)) := by
  obtain ⟨_, _, _, _, _, _, hsent, hbounce⟩ :=
    MailSend_ok_fields P c sTime eTime sender user subject body c2 m hr
  have hor : m.Stat = "sent" ∨ m.Stat = "bounce" := by
    by_cases hE : m.Error = none
    · exact Or.inl (hsent.mpr hE)
    · exact Or.inr (hbounce.mpr hE)
  refine ⟨hor, ?_, ?_⟩
  · intro hp
    obtain ⟨c1, cmds, e, hrun, _, _, _, _, _, _, _, _, _, herr, hnone⟩ :=
      MailSend_ok_sequential P c sTime eTime sender user subject body hp c2 m hr
    obtain ⟨_, _, _, hok, hbad⟩ :=
      execEach_ok_spec P (mailCommands sender (user ++ "@" ++ c.Domain)) c c1 cmds e hrun
    rw [hsent]
    unfold sequentialClean
    cases e with
    | none =>
      obtain ⟨hh, hall⟩ := hok rfl
      obtain ⟨hme, _⟩ := hnone rfl
      rw [hme, hh]
      exact ⟨fun h => ⟨hall, h⟩, fun h => h.2⟩
    | some err =>
      obtain ⟨hme, _⟩ := herr err rfl
      obtain ⟨k, hk, _, hf, _⟩ := hbad err rfl
      constructor
      · intro h; rw [hme] at h; simp at h
      · intro h
        have := h.1 k hk
        rw [hf] at this
        simp at this
  · intro hp
    obtain ⟨r, hrun, _, _, _, _, _, _, _, _, _, herr, hnone⟩ :=
      MailSend_ok_pipelined P c sTime eTime sender user subject body hp c2 m hr
    obtain ⟨hiff, hhist⟩ :=
      Exec_ok_pipelined_error P c (mailCommands sender (user ++ "@" ++ c.Domain))
        (by simp [mailCommands]) r hrun
    rw [hsent]
    unfold pipelinedClean
    cases he : r.err with
    | none =>
      obtain ⟨hme, _⟩ := hnone he
      obtain ⟨hw, hlast⟩ := hiff.mp he
      rw [hme, hhist he]
      exact ⟨fun h => ⟨hw, hlast, h⟩, fun h => h.2.2⟩
    | some err =>
      obtain ⟨hme, _⟩ := herr err he
      constructor
      · intro h; rw [hme] at h; simp at h
      · intro h
        have := hiff.mpr ⟨h.1, h.2.1⟩
        rw [he] at this
        simp at this

/-- C5 (amended): whenever `MailSend` returns, the envelope's `Stat` is "bounce" or
"sent".  On the sequential path it is "bounce" exactly when one of the three
exchanges, the content write, the close of the dot writer or the final read has
an error.  On the pipelined path it is "bounce" exactly when a request line
cannot be written, or the reply to `DATA` has an error, or the data phase has
one; the replies to `MAIL FROM` and `RCPT TO` do not matter.  On an idle pipeline
`MailSend` does return. -/
theorem MailSend_stat (P : Peer) (c : Client) (sTime eTime : Int)
    (sender user subject body : String) :
    (∀ c2 m, MailSend P c sTime eTime sender user subject body = .ok (c2, m) →
      (m.Stat = "sent" ∨ m.Stat = "bounce") ∧
      (c.IsExtension "PIPELINING" = false →
        (m.Stat = "bounce" ↔ ¬ sequentialClean P c sender user subject body) ∧
        (m.Stat = "sent" ↔ sequentialClean P c sender user subject body)) ∧
      (c.IsExtension "PIPELINING" = true →
        (m.Stat = "bounce" ↔ ¬ pipelinedClean P c sender user subject body) ∧
        (m.Stat = "sent" ↔ pipelinedClean P c sender user subject body))) ∧
    (c.tConn.idle → ∃ c2 m, MailSend P c sTime eTime sender user subject body = .ok (c2, m)) := by
  refine ⟨?_, MailSend_returns P c sTime eTime sender user subject body⟩
  intro c2 m hr
  obtain ⟨hor, hseq, hpipe⟩ := MailSend_ok_stat P c sTime eTime sender user subject body c2 m hr
  have hne : m.Stat = "bounce" → m.Stat ≠ "sent" := by
    intro h1 h2
    rw [h1] at h2
    exact absurd h2 (by decide)
  refine ⟨hor, ?_, ?_⟩
  · intro hp
    have hs := hseq hp
    refine ⟨⟨fun hb hc => hne hb (hs.mpr hc), fun hn => ?_⟩, hs⟩
    rcases hor with h | h
    · exact absurd (hs.mp h) hn
    · exact h
  · intro hp
    have hs := hpipe hp
    refine ⟨⟨fun hb hc => hne hb (hs.mpr hc), fun hn => ?_⟩, hs⟩
    rcases hor with h | h
    · exact absurd (hs.mp h) hn
    · exact h

/-- C5 (counterexample): on the pipelined path the server rejects `MAIL FROM` with
550 and accepts the rest; the envelope has `Stat` "sent" although the first
command carries the error of its reply. -/
theorem MailSend_pipelined_sent_despite_rejection :
    (MailSend
        (scriptPeer [Reply.reply 550 "no", Reply.reply 250 "ok", Reply.reply 354 "go",
                     Reply.reply 250 "queued"] none)
        (freshClient "example.org" "mail.example.org" (mapSet (fun _ => none) "PIPELINING" ""))
        5 2000005 "a@example.com" "u" "SMTPING" "hello").toOption.map
      (fun r => (r.2.Stat, r.2.Commands.map (fun v => v.Error)))
      = some ("sent", [some (GoError.proto 550 "no"), none, none]) := by
  decide

/-- C5 (witness): a fresh client is idle; on the sequential path the server rejects
`RCPT TO`, and the envelope is a bounce. -/
theorem MailSend_stat_witness :
    (freshClient "example.org" "mail.example.org" (fun _ => none)).tConn.idle ∧
    ∃ c2 m, MailSend rejectingPeer (freshClient "example.org" "mail.example.org" (fun _ => none))
        5 2000005 "a@example.com" "u" "SMTPING" "hello" = .ok (c2, m) ∧
      m.Stat = "bounce" := by
  refine ⟨by decide, ?_⟩
  have h := MailSend_stat rejectingPeer
    (freshClient "example.org" "mail.example.org" (fun _ => none))
    5 2000005 "a@example.com" "u" "SMTPING" "hello"
  obtain ⟨c2, m, hr⟩ := h.2 (by decide)
  obtain ⟨_, hseq, _⟩ := h.1 c2 m hr
  refine ⟨c2, m, hr, (hseq (by decide)).1.mpr ?_⟩
  intro hclean
  have h1 := hclean.1 1 (by decide)
  exact absurd h1 (by decide)

theorem mailCommands_response (a b : String) (j : Nat) (hj : j < (mailCommands a b).length) :
    ((mailCommands a b)[j]?).map (fun v => v.Response) = some none := by
  have h3 : j < 3 := by simpa [mailCommands] using hj
  interval_cases j <;> simp [mailCommands]

theorem DisableExtension_spec (c : Client) (name : String) :
    (c.DisableExtension name).IsExtension name = false ∧
    (∀ other, other ≠ name → (c.DisableExtension name).extensions other = c.extensions other) ∧
    (c.DisableExtension name).tConn = c.tConn ∧ (c.DisableExtension name).Domain = c.Domain := by
  refine ⟨by simp [Client.DisableExtension, Client.IsExtension, mapDelete], ?_, rfl, rfl⟩
  intro other ho
  simp [Client.DisableExtension, mapDelete, ho]

theorem MailSend_ok_sequential_spec (P : Peer) (c : Client) (sTime eTime : Int)
    (sender user subject body : String) (hp : c.IsExtension "PIPELINING" = false)
    (c2 : Client) (m : Mail)
    (hr : MailSend P c sTime eTime sender user subject body = .ok (c2, m)) :
    (∀ (k : Nat) (hk : k < (mailCommands sender (user ++ "@" ++ c.Domain)).length)
        (err : GoError),
      (∀ j (hj : j < k),
        exchangeError P
          (c.tConn.hist ++ exchangeHist ((mailCommands sender (user ++ "@" ++ c.Domain)).take j))
          ((mailCommands sender (user ++ "@" ++ c.Domain))[j]) = none) →
      exchangeError P
        (c.tConn.hist ++ exchangeHist ((mailCommands sender (user ++ "@" ++ c.Domain)).take k))
        (mailCommands sender (user ++ "@" ++ c.Domain))[k] = some err →
      m.Error = some err ∧ m.Stat = "bounce" ∧
      c2.tConn.hist
        = c.tConn.hist ++ exchangeHist ((mailCommands sender (user ++ "@" ++ c.Domain)).take k)
          ++ exchangeEvents P
              (c.tConn.hist
                ++ exchangeHist ((mailCommands sender (user ++ "@" ++ c.Domain)).take k))
              (mailCommands sender (user ++ "@" ++ c.Domain))[k] ∧
      ∀ j, k < j → j < (mailCommands sender (user ++ "@" ++ c.Domain)).length →
        (m.Commands[j]?).map (fun v => v.Response) = some none) ∧
    ((∀ j (hj : j < (mailCommands sender (user ++ "@" ++ c.Domain)).length),
        exchangeError P
          (c.tConn.hist ++ exchangeHist ((mailCommands sender (user ++ "@" ++ c.Domain)).take j))
          (mailCommands sender (user ++ "@" ++ c.Domain))[j] = none) →
      c2.tConn.hist
        = c.tConn.hist ++ exchangeHist (mailCommands sender (user ++ "@" ++ c.Domain))
          ++ dataEvents P
              (c.tConn.hist ++ exchangeHist (mailCommands sender (user ++ "@" ++ c.Domain)))
              (newMail c sender user subject body).Content) := by
  obtain ⟨c1, cmds, e, hrun, _, _, _, _, hcmds, _, _, _, hbounce, herr, hnone⟩ :=
    MailSend_ok_sequential P c sTime eTime sender user subject body hp c2 m hr
  obtain ⟨_, _, _, hok, hbad⟩ :=
    execEach_ok_spec P (mailCommands sender (user ++ "@" ++ c.Domain)) c c1 cmds e hrun
  refine ⟨?_, ?_⟩
  · intro k hk err hbefore hfail
    cases e with
    | none =>
      obtain ⟨_, hall⟩ := hok rfl
      have := hall k hk
      rw [hfail] at this
      simp at this
    | some err1 =>
      obtain ⟨k1, hk1, hb1, hf1, hh1, hlater, _⟩ := hbad err1 rfl
      obtain ⟨hme, hc⟩ := herr err1 rfl
      have hkk : k1 = k := by
        rcases Nat.lt_trichotomy k1 k with h | h | h
        · have := hbefore k1 h
          rw [hf1] at this
          simp at this
        · exact h
        · have := hb1 k h
          rw [hfail] at this
          simp at this
      subst hkk
      have hee : err1 = err := by
        rw [hf1] at hfail
        exact Option.some.inj hfail
      subst hee
      refine ⟨hme, hbounce.mpr (by rw [hme]; simp), by rw [hc]; exact hh1, ?_⟩
      intro j hkj hj
      rw [hcmds, hlater j hkj]
      exact mailCommands_response _ _ j hj
  · intro hall
    cases e with
    | none =>
      obtain ⟨hh, _⟩ := hok rfl
      obtain ⟨_, hh2⟩ := hnone rfl
      rw [hh2, hh]
    | some err1 =>
      obtain ⟨k1, hk1, _, hf1, _⟩ := hbad err1 rfl
      have := hall k1 hk1
      rw [hf1] at this
      simp at this

/-- C7: `DisableExtension("PIPELINING")` leaves a table without that entry and with
every other entry unchanged.  For a client whose table has no `PIPELINING`
entry, whenever `MailSend` returns: if the `k`-th single-command exchange is the
first with an error, the envelope's `Error` is that error, the transport has seen
the complete exchanges (write, read) of the commands before it followed by the
operations of the failing exchange and nothing else, and every later command
keeps a nil `Response`; if no exchange has an error, the three exchanges were
performed one after the other, each write followed by its read, before the data
phase.  On an idle pipeline `MailSend` does return. -/
theorem MailSend_sequential_halts (P : Peer) (c : Client) (sTime eTime : Int)
    (sender user subject body : String) (hp : c.IsExtension "PIPELINING" = false) :
    (∀ c0 : Client,
      (c0.DisableExtension "PIPELINING").IsExtension "PIPELINING" = false ∧
      ∀ other, other ≠ "PIPELINING" →
        (c0.DisableExtension "PIPELINING").extensions other = c0.extensions other) ∧
    (∀ c2 m, MailSend P c sTime eTime sender user subject body = .ok (c2, m) →
      (∀ (k : Nat) (hk : k < (mailCommands sender (user ++ "@" ++ c.Domain)).length)
          (err : GoError),
        (∀ j (hj : j < k),
          exchangeError P
            (c.tConn.hist ++ exchangeHist ((mailCommands sender (user ++ "@" ++ c.Domain)).take j))
            ((mailCommands sender (user ++ "@" ++ c.Domain))[j]) = none) →
        exchangeError P
          (c.tConn.hist ++ exchangeHist ((mailCommands sender (user ++ "@" ++ c.Domain)).take k))
          (mailCommands sender (user ++ "@" ++ c.Domain))[k] = some err →
        m.Error = some err ∧ m.Stat = "bounce" ∧
        c2.tConn.hist
          = c.tConn.hist ++ exchangeHist ((mailCommands sender (user ++ "@" ++ c.Domain)).take k)
            ++ exchangeEvents P
                (c.tConn.hist
                  ++ exchangeHist ((mailCommands sender (user ++ "@" ++ c.Domain)).take k))
                (mailCommands sender (user ++ "@" ++ c.Domain))[k] ∧
        ∀ j, k < j → j < (mailCommands sender (user ++ "@" ++ c.Domain)).length →
          (m.Commands[j]?).map (fun v => v.Response) = some none) ∧
      ((∀ j (hj : j < (mailCommands sender (user ++ "@" ++ c.Domain)).length),
          exchangeError P
            (c.tConn.hist ++ exchangeHist ((mailCommands sender (user ++ "@" ++ c.Domain)).take j))
            (mailCommands sender (user ++ "@" ++ c.Domain))[j] = none) →
        c2.tConn.hist
          = c.tConn.hist ++ exchangeHist (mailCommands sender (user ++ "@" ++ c.Domain))
            ++ dataEvents P
                (c.tConn.hist ++ exchangeHist (mailCommands sender (user ++ "@" ++ c.Domain)))
                (newMail c sender user subject body).Content)) ∧
    (c.tConn.idle → ∃ c2 m, MailSend P c sTime eTime sender user subject body = .ok (c2, m)) :=
  ⟨fun c0 => ⟨(DisableExtension_spec c0 "PIPELINING").1, (DisableExtension_spec c0 "PIPELINING").2.1⟩,
   fun c2 m hr => MailSend_ok_sequential_spec P c sTime eTime sender user subject body hp c2 m hr,
   MailSend_returns P c sTime eTime sender user subject body⟩

/-- C7 (witness): the server advertised `PIPELINING`, the caller disabled it, and
the server rejects `RCPT TO`: the envelope carries that error and the transport
has seen two exchanges and no `DATA`. -/
theorem MailSend_sequential_halts_witness :
    (pipeliningClient.DisableExtension "PIPELINING").tConn.idle ∧
    (pipeliningClient.DisableExtension "PIPELINING").IsExtension "PIPELINING" = false ∧
    ∃ c2 m, MailSend rejectingPeer (pipeliningClient.DisableExtension "PIPELINING")
        5 2000005 "a@example.com" "u" "SMTPING" "hello" = .ok (c2, m) ∧
      m.Error = some (GoError.proto 550 "no such user") ∧
      c2.tConn.hist =
        [Event.printfLine "MAIL FROM:<%s>%s" ["a@example.com", " BODY=8BITMIME"],
         Event.readResponse 250,
         Event.printfLine "RCPT TO:<%s>" ["u@example.org"],
         Event.readResponse 250] := by
  refine ⟨by decide, by decide, ?_⟩
  have h := MailSend_sequential_halts rejectingPeer
    (pipeliningClient.DisableExtension "PIPELINING")
    5 2000005 "a@example.com" "u" "SMTPING" "hello" (by decide)
  obtain ⟨c2, m, hr⟩ := h.2.2 (by decide)
  obtain ⟨hhalt, _⟩ := h.2.1 c2 m hr
  obtain ⟨h1, _, h3, _⟩ := hhalt 1 (by decide) (GoError.proto 550 "no such user")
    (by intro j hj; interval_cases j; rfl) (by rfl)
  exact ⟨c2, m, hr, h1, by rw [h3]; decide⟩

/-- C6 (witness): a fresh client is idle, the clock readings 5 and 2000005 are in
range and ordered; the envelope of a submission that bounces has the size of
the body and 2 elapsed milliseconds. -/
theorem MailSend_size_and_time_witness :
    (freshClient "example.org" "mail.example.org" (fun _ => none)).tConn.idle ∧
    (0 : Int) ≤ 5 ∧ (5 : Int) ≤ 2000005 ∧ (2000005 : Int) < 2 ^ 63 ∧
    ∃ c2 m, MailSend rejectingPeer (freshClient "example.org" "mail.example.org" (fun _ => none))
        5 2000005 "a@example.com" "u" "SMTPING" "hello" = .ok (c2, m) ∧
      m.Size = 5 ∧ m.Time = 2 := by
  refine ⟨by decide, by decide, by decide, by decide, ?_⟩
  have h := MailSend_size_and_time rejectingPeer
    (freshClient "example.org" "mail.example.org" (fun _ => none))
    5 2000005 "a@example.com" "u" "SMTPING" "hello" (by decide) (by decide) (by decide)
  obtain ⟨c2, m, hr⟩ := h.2 (by decide)
  obtain ⟨hsize, _, htime, _⟩ := h.1 c2 m hr
  exact ⟨c2, m, hr, by rw [hsize]; decide, by rw [htime]; decide⟩

/-- C8 (witness): a fresh client is idle; the content of the envelope of a
submission on it. -/
theorem MailSend_content_roundtrip_witness :
    (freshClient "example.org" "mail.example.org" (fun _ => none)).tConn.idle ∧
    ∃ c2 m, MailSend rejectingPeer (freshClient "example.org" "mail.example.org" (fun _ => none))
        5 2000005 "a@example.com" "u" "SMTPING" "hello" = .ok (c2, m) ∧
      m.To = "u@example.org" ∧
      m.Content = "From:a@example.com\r\nTo:u@example.org\r\nSubject:SMTPING\r\nhello\r\n" := by
  refine ⟨by decide, ?_⟩
  have h := MailSend_content_roundtrip rejectingPeer
    (freshClient "example.org" "mail.example.org" (fun _ => none))
    5 2000005 "a@example.com" "u" "SMTPING" "hello"
  obtain ⟨c2, m, hr⟩ := h.2.2 (by decide)
  obtain ⟨hto, _, _, _, hcontent⟩ := h.2.1 c2 m hr
  exact ⟨c2, m, hr, by rw [hto]; decide, by rw [hcontent]; decide⟩

/-! ## Close -/

theorem Close_ok_quit_failure (P : Peer) (c : Client) (e : GoError)
    (hq : exchangeError P c.tConn.hist (NewCommand 221 "QUIT" []) = some e)
    (c1 : Client) (err : Option GoError) (hr : Close P c = .ok (c1, err)) :
    err = some e ∧
    c1.tConn.hist = c.tConn.hist ++ exchangeEvents P c.tConn.hist (NewCommand 221 "QUIT" []) ∧
    Event.close ∉ exchangeEvents P c.tConn.hist (NewCommand 221 "QUIT" []) := by
  have hno : Event.close ∉ exchangeEvents P c.tConn.hist (NewCommand 221 "QUIT" []) := by
    unfold exchangeEvents
    split <;> simp [writeEvent, readEvent]
  cases hE : Exec P c [NewCommand 221 "QUIT" []] with
  | error x => simp [Close, hE] at hr
  | ok r =>
    obtain ⟨herr, hh, _⟩ := Exec_single_ok P c (NewCommand 221 "QUIT" []) r hE
    rw [hq] at herr
    simp only [Close, hE, herr, Except.ok.injEq, Prod.mk.injEq] at hr
    obtain ⟨rfl, rfl⟩ := hr
    exact ⟨rfl, hh, hno⟩

theorem Close_returns (P : Peer) (c : Client) (hidle : c.tConn.idle) :
    ∃ c1 err, Close P c = .ok (c1, err) := by
  obtain ⟨r, hr, _⟩ := Exec_single P c (NewCommand 221 "QUIT" []) hidle
  cases he : r.err with
  | some e => exact ⟨_, _, by simp [Close, hr, he]; exact ⟨rfl, rfl⟩⟩
  | none => exact ⟨_, _, by simp [Close, hr, he]; exact ⟨rfl, rfl⟩⟩

/-- C1 (code): when the `QUIT` exchange has an error (the line cannot be written,
the reply cannot be read, or its code is not 221), then whenever `Close` returns
it returns that error and the transport has seen the operations of the `QUIT`
exchange only: no close is attempted.  On an idle pipeline `Close` does return. -/
theorem Close_quit_failure (P : Peer) (c : Client) (e : GoError)
    (hq : exchangeError P c.tConn.hist (NewCommand 221 "QUIT" []) = some e) :
    (∀ c1 err, Close P c = .ok (c1, err) →
      err = some e ∧
      c1.tConn.hist = c.tConn.hist ++ exchangeEvents P c.tConn.hist (NewCommand 221 "QUIT" []) ∧
      Event.close ∉ exchangeEvents P c.tConn.hist (NewCommand 221 "QUIT" [])) ∧
    (c.tConn.idle → ∃ c1 err, Close P c = .ok (c1, err)) :=
  ⟨fun c1 err hr => Close_ok_quit_failure P c e hq c1 err hr, Close_returns P c⟩

/-- C1 (witness): the server answers `QUIT` with 421; `Close` returns the protocol
error and the transport has seen the write and the read, no close. -/
theorem Close_quit_failure_witness :
    (freshClient "example.org" "mail.example.org" (fun _ => none)).tConn.idle ∧
    ∃ c1, Close quitRefusedPeer (freshClient "example.org" "mail.example.org" (fun _ => none))
        = .ok (c1, some (GoError.proto 421 "try again later")) ∧
      c1.tConn.hist = [Event.printfLine "QUIT" [], Event.readResponse 221] := by
  refine ⟨by decide, ?_⟩
  have h := Close_quit_failure quitRefusedPeer
    (freshClient "example.org" "mail.example.org" (fun _ => none))
    (GoError.proto 421 "try again later") (by decide)
  obtain ⟨c1, err, hr⟩ := h.2 (by decide)
  obtain ⟨h1, h2, _⟩ := h.1 c1 err hr
  subst h1
  exact ⟨c1, hr, by rw [h2]; decide⟩

/-! ## Auth -/

theorem authLoop_failure_step {μ : Type} (E : Encoding) (a : Auth μ) (P : Peer) (cmd : Command)
    (rsp : Response) (fuel : Nat) (c : Client) (s : μ)
    (hrsp : cmd.Response = some rsp)
    (hfail : (rsp.Code ≠ 334 ∧ rsp.Code ≠ 235) ∨
      ((authSwitch E rsp).2 = none ∧
        (a.Next s (authSwitch E rsp).1 (decide (rsp.Code = 334))).2.2 ≠ none)) :
    authLoop E a P cmd (fuel + 1) c s =
      (match Exec P c [NewCommand 501 "*" []] with
       | .error h => .error h
       | .ok r =>
         match r.err with
         | some e =>
           .ok { c := r.c,
                 s := (match (authSwitch E rsp).2 with
                       | none => a.Next s (authSwitch E rsp).1 (decide (rsp.Code = 334))
                       | some e => (s, none, some e)).1,
                 err := some e }
         | none =>
           match Close P r.c with
           | .error h => .error h
           | .ok cl =>
             .ok { c := cl.1,
                   s := (match (authSwitch E rsp).2 with
                         | none => a.Next s (authSwitch E rsp).1 (decide (rsp.Code = 334))
                         | some e => (s, none, some e)).1,
                   err := none }) := by
  have hsome : ∃ e, (match (authSwitch E rsp).2 with
      | none => a.Next s (authSwitch E rsp).1 (decide (rsp.Code = 334))
      | some e => (s, none, some e)).2.2 = some e := by
    rcases hfail with ⟨h1, h2⟩ | ⟨h1, h2⟩
    · exact ⟨.proto rsp.Code rsp.Message, by simp [authSwitch, h1, h2]⟩
    · rw [h1]
      cases hn : (a.Next s (authSwitch E rsp).1 (decide (rsp.Code = 334))).2.2 with
      | none => exact absurd hn h2
      | some e => exact ⟨e, rfl⟩
  obtain ⟨e, he⟩ := hsome
  simp only [authLoop, hrsp]
  rw [he]

theorem authLoop_failure_returns_nil {μ : Type} (E : Encoding) (a : Auth μ) (P : Peer)
    (cmd : Command) (rsp : Response) (fuel : Nat) (c : Client) (s : μ)
    (hrsp : cmd.Response = some rsp)
    (hfail : (rsp.Code ≠ 334 ∧ rsp.Code ≠ 235) ∨
      ((authSwitch E rsp).2 = none ∧
        (a.Next s (authSwitch E rsp).1 (decide (rsp.Code = 334))).2.2 ≠ none))
    (hcancel : exchangeError P c.tConn.hist (NewCommand 501 "*" []) = none) :
    (∀ r, authLoop E a P cmd (fuel + 1) c s = .ok r → r.err = none) ∧
    (c.tConn.idle → ∃ r, authLoop E a P cmd (fuel + 1) c s = .ok r) := by
  rw [authLoop_failure_step E a P cmd rsp fuel c s hrsp hfail]
  constructor
  · intro r hr
    cases hE : Exec P c [NewCommand 501 "*" []] with
    | error x => simp [hE] at hr
    | ok r0 =>
      obtain ⟨herr, _⟩ := Exec_single_ok P c _ r0 hE
      rw [hcancel] at herr
      cases hC : Close P r0.c with
      | error x => simp [hE, herr, hC] at hr
      | ok cl =>
        simp only [hE, herr, hC, Except.ok.injEq] at hr
        rw [← hr]
  · intro hidle
    obtain ⟨r0, hE, herr, _, hid, _⟩ := Exec_single P c (NewCommand 501 "*" []) hidle
    rw [hcancel] at herr
    obtain ⟨c1, err, hC⟩ := Close_returns P r0.c (hid herr)
    simp only [hE, herr, hC]
    exact ⟨_, rfl⟩

theorem Exec_single_ok_cmd (P : Peer) (c : Client) (v : Command) (r : ExecResult)
    (hr : Exec P c [v] = .ok r) (hw : P.onPrintfLine c.tConn.hist v.Format v.Args = none) :
    r.cmd = [{ v with
      Response := some ⟨(ReadResponse (P.onReadResponse (c.tConn.hist ++ [writeEvent v]))
                          v.ExpectCode).1,
                        (ReadResponse (P.onReadResponse (c.tConn.hist ++ [writeEvent v]))
                          v.ExpectCode).2.1⟩,
      Error := (ReadResponse (P.onReadResponse (c.tConn.hist ++ [writeEvent v]))
                          v.ExpectCode).2.2 }] := by
  have hwl : (writeLines P [v] c.tConn.hist).2 = none := by simp [writeLines, hw]
  obtain ⟨hq, hp⟩ := Exec_ok_written_idle P c [v] r hr hwl
  simp [Exec, hq, hp, writeLines, hw, readReplies] at hr
  rw [← hr]

theorem ReadResponse_unchecked (code : Int) (message : String) (h : 100 ≤ code) :
    ReadResponse (Reply.reply code message) 0 = (code, message, none) := by
  have h1 : ¬ code < 100 := by omega
  simp [ReadResponse, codeMismatch, h1]

/-- C2 (code): `Start` succeeds, the `AUTH` line is written and answered with a reply
`code message`, and authentication fails on that reply: its code is neither 334
nor 235, or `Next` returns an error for it.  When the server answers the
cancellation line `*` with 501 (that exchange has no error), then whenever `Auth`
returns it returns nil; and on an idle pipeline it does return. -/
theorem Auth_failure_returns_nil {μ : Type} (E : Encoding) (P : Peer) (fuel : Nat)
    (c : Client) (a : Auth μ) (s : μ) (code : Int) (message : String)
    (hstart : (a.Start s c.serverInfo).2.2.2 = none)
    (hw : P.onPrintfLine c.tConn.hist (authLine E a s c) [] = none)
    (hr : P.onReadResponse (c.tConn.hist ++ [Event.printfLine (authLine E a s c) []])
      = Reply.reply code message)
    (hcode : 100 ≤ code)
    (hfail : (code ≠ 334 ∧ code ≠ 235) ∨
      ((authSwitch E ⟨code, message⟩).2 = none ∧
        (a.Next (a.Start s c.serverInfo).1
          (authSwitch E ⟨code, message⟩).1 (decide (code = 334))).2.2 ≠ none))
    (hcancel : exchangeError P
        (c.tConn.hist ++ [Event.printfLine (authLine E a s c) [], Event.readResponse 0])
        (NewCommand 501 "*" []) = none) :
    (∀ r, Client.Auth E P (fuel + 1) c a s = .ok r → r.err = none) ∧
    (c.tConn.idle → ∃ r, Client.Auth E P (fuel + 1) c a s = .ok r) := by
  have hrd := ReadResponse_unchecked code message hcode
  have hex : exchangeError P c.tConn.hist (NewCommand 0 (authLine E a s c) []) = none := by
    simp [exchangeError, NewCommand, hw, writeEvent, hr, hrd]
  have hev : exchangeEvents P c.tConn.hist (NewCommand 0 (authLine E a s c) [])
      = [Event.printfLine (authLine E a s c) [], Event.readResponse 0] := by
    simp [exchangeEvents, NewCommand, hw, writeEvent, readEvent]
  have hauth : Client.Auth E P (fuel + 1) c a s =
      (match Exec P c [NewCommand 0 (authLine E a s c) []] with
       | .error h => .error h
       | .ok r =>
         match r.err with
         | some e => .ok { c := r.c, s := (a.Start s c.serverInfo).1, err := some e }
         | none => authLoop E a P (r.cmd.headD (NewCommand 0 (authLine E a s c) [])) (fuel + 1)
             r.c (a.Start s c.serverInfo).1) := by
    simp only [Client.Auth, hstart, authLine]
  rw [hauth]
  constructor
  · intro r hret
    cases hE : Exec P c [NewCommand 0 (authLine E a s c) []] with
    | error x => simp [hE] at hret
    | ok r0 =>
      obtain ⟨herr, hh, _⟩ := Exec_single_ok P c _ r0 hE
      have hcmd := Exec_single_ok_cmd P c _ r0 hE (by simpa [NewCommand] using hw)
      rw [hex] at herr
      rw [hev] at hh
      simp only [hE, herr] at hret
      refine (authLoop_failure_returns_nil E a P _ ⟨code, message⟩ fuel r0.c _ ?_ hfail
        (by rw [hh]; exact hcancel)).1 r hret
      rw [hcmd]
      simp [NewCommand, writeEvent, hr, hrd]
  · intro hidle
    obtain ⟨r0, hE, herr, hh, hid, _⟩ := Exec_single P c (NewCommand 0 (authLine E a s c) []) hidle
    have hcmd := Exec_single_ok_cmd P c _ r0 hE (by simpa [NewCommand] using hw)
    rw [hex] at herr
    rw [hev] at hh
    simp only [hE, herr]
    refine (authLoop_failure_returns_nil E a P _ ⟨code, message⟩ fuel r0.c _ ?_ hfail
      (by rw [hh]; exact hcancel)).2 (hid herr)
    rw [hcmd]
    simp [NewCommand, writeEvent, hr, hrd]

/-- C2 (witness): the server rejects the credentials of a PLAIN-style mechanism with
535 and answers the cancellation line with 501: `Auth` returns nil. -/
theorem Auth_failure_returns_nil_witness :
    (freshClient "example.org" "mail.example.org" (fun _ => none)).tConn.idle ∧
    ∃ r, Client.Auth asciiBase64 rejectCredentialsPeer 10
        (freshClient "example.org" "mail.example.org" (fun _ => none)) plainMech [] = .ok r ∧
      r.err = none := by
  refine ⟨by decide, ?_⟩
  have h := Auth_failure_returns_nil asciiBase64 rejectCredentialsPeer 9
    (freshClient "example.org" "mail.example.org" (fun _ => none)) plainMech []
    535 "authentication failed" (by rfl) (by rfl) (by rfl) (by decide)
    (Or.inl ⟨by decide, by decide⟩) (by rfl)
  obtain ⟨r, hr⟩ := h.2 (by decide)
  exact ⟨r, hr, h.1 r hr⟩

/-- C2 (evaluation): two handshakes in which authentication fails and the server
answers the cancellation line with 501.  In the first the server rejects the
credentials with 535, in the second the mechanism refuses a challenge.  Both
times `NewClient` returns a client and a nil error; the transport of that client
has been closed. -/
theorem NewClient_swallows_auth_failure :
    (NewClient localNet asciiBase64 rejectAuthPeer 10 "example.org" "mail.example.org:25"
        (some plainMech) []).toOption.map
      (fun r => (r.err, r.c.map (fun c => c.tConn.hist), r.s))
      = some (none,
          some [Event.readResponse 220, Event.printfLine "EHLO %s" ["localhost"],
                Event.readResponse 250, Event.printfLine "AUTH PLAIN AHVzZXIAc2VjcmV0" [],
                Event.readResponse 0, Event.printfLine "*" [], Event.readResponse 501,
                Event.printfLine "QUIT" [], Event.readResponse 221, Event.close],
          []) ∧
    (NewClient localNet asciiBase64 challengePeer 10 "example.org" "mail.example.org:25"
        (some plainMech) []).toOption.map
      (fun r => (r.err, r.c.map (fun c => c.tConn.hist), r.s))
      = some (none,
          some [Event.readResponse 220, Event.printfLine "EHLO %s" ["localhost"],
                Event.readResponse 250, Event.printfLine "AUTH PLAIN AHVzZXIAc2VjcmV0" [],
                Event.readResponse 0, Event.printfLine "*" [], Event.readResponse 501,
                Event.printfLine "QUIT" [], Event.readResponse 221, Event.close],
          [("", true)]) := by
  constructor <;> rfl

/-- C9 (code): a LOGIN exchange.  The server answers `AUTH LOGIN` with the challenge
`Username:`, the first continuation line with the challenge `Password:` and the
second with 235.  All three calls of `Next` receive `Username:` with more = true,
the reply to the `AUTH` line; the user name is sent three times and `Auth` ends
with the read error of the fourth reply. -/
theorem Auth_feeds_first_reply_again :
    (Client.Auth asciiBase64 loginPeer 10
        (freshClient "example.org" "mail.example.org" (fun _ => none)) loginMech []).toOption.map
      (fun r => (r.s, r.err, r.c.tConn.hist))
      = some ([("Username:", true), ("Username:", true), ("Username:", true)],
          some (GoError.other "EOF"),
          [Event.printfLine "AUTH LOGIN" [], Event.readResponse 0,
           Event.printfLine "dXNlcg==" [], Event.readResponse 0,
           Event.printfLine "dXNlcg==" [], Event.readResponse 0,
           Event.printfLine "dXNlcg==" [], Event.readResponse 0]) := by
  decide

/-! ## EHLO parsing -/

theorem splitChars_cut (sep : Char) : ∀ (first rest : List Char), sep ∉ first →
    splitChars sep (first ++ sep :: rest) = first :: splitChars sep rest := by
  intro first
  induction first with
  | nil => intro rest _; simp [splitChars]
  | cons c cs ih =>
    intro rest hnot
    have hc : c ≠ sep := fun h => hnot (by simp [h])
    have hcs : sep ∉ cs := fun h => hnot (by simp [h])
    simp [splitChars, hc, ih rest hcs]

theorem splitChars_whole (sep : Char) : ∀ (l : List Char), sep ∉ l → splitChars sep l = [l] := by
  intro l
  induction l with
  | nil => intro _; simp [splitChars]
  | cons c cs ih =>
    intro hnot
    have hc : c ≠ sep := fun h => hnot (by simp [h])
    have hcs : sep ∉ cs := fun h => hnot (by simp [h])
    simp [splitChars, hc, ih hcs]

theorem cutChars_cut (sep : Char) : ∀ (k p : List Char), sep ∉ k →
    cutChars sep (k ++ sep :: p) = (k, some p) := by
  intro k
  induction k with
  | nil => intro p _; simp [cutChars]
  | cons c cs ih =>
    intro p hnot
    have hc : c ≠ sep := fun h => hnot (by simp [h])
    have hcs : sep ∉ cs := fun h => hnot (by simp [h])
    simp [cutChars, hc, ih p hcs]

theorem cutChars_whole (sep : Char) : ∀ (l : List Char), sep ∉ l → cutChars sep l = (l, none) := by
  intro l
  induction l with
  | nil => intro _; simp [cutChars]
  | cons c cs ih =>
    intro hnot
    have hc : c ≠ sep := fun h => hnot (by simp [h])
    have hcs : sep ∉ cs := fun h => hnot (by simp [h])
    simp [cutChars, hc, ih hcs]

theorem Split_first_line (first rest : String) (h : '\n' ∉ first.data) :
    Split (first ++ "\n" ++ rest) '\n' = first :: Split rest '\n' := by
  have hd : (first ++ "\n" ++ rest).data = first.data ++ '\n' :: rest.data := by
    simp [String.data_append]
  simp [Split, hd, splitChars_cut '\n' first.data rest.data h]

theorem parseExtensions_later_lines (first rest : String) (h : '\n' ∉ first.data) :
    parseExtensions (first ++ "\n" ++ rest)
      = (Split rest '\n').foldl extensionLine (fun _ => none) := by
  have hlen : 0 < (Split rest '\n').length := by
    unfold Split
    cases rest.data with
    | nil => simp [splitChars]
    | cons c cs =>
      simp only [List.length_map]
      unfold splitChars
      split
      · simp
      · split <;> simp
  simp [parseExtensions, Split_first_line first rest h, hlen]

theorem parseExtensions_one_line (message : String) (h : '\n' ∉ message.data) :
    parseExtensions message = fun _ => none := by
  simp [parseExtensions, Split, splitChars_whole '\n' message.data h]

theorem extensionLine_keyword_parameter (m : String → Option String) (k p : String)
    (h : ' ' ∉ k.data) : extensionLine m (k ++ " " ++ p) = mapSet m k p := by
  have hd : (k ++ " " ++ p).data = k.data ++ ' ' :: p.data := by
    simp [String.data_append]
  simp [extensionLine, SplitN2, hd, cutChars_cut ' ' k.data p.data h]

theorem extensionLine_keyword_only (m : String → Option String) (line : String)
    (h : ' ' ∉ line.data) : extensionLine m line = mapSet m line "" := by
  simp [extensionLine, SplitN2, cutChars_whole ' ' line.data h]

theorem ehlo_spec (P : Peer) (c : Client) (message : String) (hidle : c.tConn.idle)
    (hw : P.onPrintfLine c.tConn.hist "EHLO %s" ["localhost"] = none)
    (hr : P.onReadResponse (c.tConn.hist ++ [Event.printfLine "EHLO %s" ["localhost"]])
      = Reply.reply 250 message) :
    ∃ c1, ehlo P c = .ok (c1, none) ∧ c1.extensions = parseExtensions message ∧
      c1.auth = parseAuth (parseExtensions message) c.auth := by
  obtain ⟨hq, hp⟩ := hidle
  refine ⟨{ c with
      tConn := { hist := c.tConn.hist ++ [Event.printfLine "EHLO %s" ["localhost"],
                                           Event.readResponse 250],
                 Pipeline := { id := c.tConn.Pipeline.id + 1, request := c.tConn.Pipeline.id + 1,
                               response := c.tConn.Pipeline.id + 1 } },
      extensions := parseExtensions message,
      auth := parseAuth (parseExtensions message) c.auth }, ?_, rfl, rfl⟩
  simp [ehlo, Exec, hq, hp, writeLines, NewCommand, hw, readReplies, hr, ReadResponse,
    codeMismatch, firstResponse, writeEvent, readEvent]

theorem ehlo_ok_auth (P : Peer) (c c1 : Client) (h : ehlo P c = .ok (c1, none)) :
    ∀ mechs, c1.extensions "AUTH" = some mechs → c1.auth = Split mechs ' ' := by
  intro mechs hm
  cases hE : Exec P c [NewCommand 250 "EHLO %s" ["localhost"]] with
  | error x => simp [ehlo, hE] at h
  | ok r =>
    cases he : r.err with
    | some e => simp [ehlo, hE, he] at h
    | none =>
      cases hf : firstResponse r.cmd with
      | error x => simp [ehlo, hE, he, hf] at h
      | ok rsp =>
        simp only [ehlo, hE, he, hf, Except.ok.injEq, Prod.mk.injEq, and_true] at h
        rw [← h] at hm ⊢
        simp only at hm
        simp [parseAuth, hm]

theorem ehlo_returns (P : Peer) (c : Client) (hidle : c.tConn.idle)
    (hw : P.onPrintfLine c.tConn.hist "EHLO %s" ["localhost"] = none) :
    ∃ c1 err, ehlo P c = .ok (c1, err) := by
  obtain ⟨hq, hp⟩ := hidle
  cases hE : Exec P c [NewCommand 250 "EHLO %s" ["localhost"]] with
  | error x =>
    simp [Exec, hq, hp, writeLines, NewCommand, hw, readReplies] at hE
  | ok r =>
    cases he : r.err with
    | some e => exact ⟨r.c, some e, by simp [ehlo, hE, he]⟩
    | none =>
      cases hf : firstResponse r.cmd with
      | error x =>
        simp [Exec, hq, hp, writeLines, NewCommand, hw, readReplies] at hE
        rw [← hE] at hf
        simp [firstResponse] at hf
      | ok rsp =>
        exact ⟨{ r.c with extensions := parseExtensions rsp.Message,
                          auth := parseAuth (parseExtensions rsp.Message) r.c.auth }, none,
          by simp [ehlo, hE, he, hf]⟩

/-! ### Reading the reply from the wire -/

theorem splitChars_no_sep (sep : Char) : ∀ (l : List Char), ∀ seg ∈ splitChars sep l, sep ∉ seg := by
  intro l
  induction l with
  | nil => intro seg hseg; simp [splitChars] at hseg; simp [hseg]
  | cons c cs ih =>
    intro seg hseg
    by_cases hc : c = sep
    · simp only [splitChars, hc, if_true, List.mem_cons] at hseg
      rcases hseg with h | h
      · simp [h]
      · exact ih seg h
    · cases hs : splitChars sep cs with
      | nil => simp [splitChars, hc, hs] at hseg; simp [hseg]; exact fun h => hc h.symm
      | cons w ws =>
        simp only [splitChars, hc, if_false, hs, List.mem_cons] at hseg
        rcases hseg with h | h
        · have hw := ih w (by simp [hs])
          simp [h]
          exact ⟨fun h => hc h.symm, hw⟩
        · exact ih seg (by simp [hs, h])

theorem dropCR_subset : ∀ (l : List Char) (x : Char), x ∈ dropCR l → x ∈ l := by
  intro l
  induction l with
  | nil => intro x hx; simp [dropCR] at hx
  | cons c cs ih =>
    intro x hx
    cases cs with
    | nil =>
      by_cases hc : c = '\r'
      · simp [dropCR, hc] at hx
      · simpa [dropCR, hc] using hx
    | cons d ds =>
      simp only [dropCR, List.mem_cons] at hx
      rcases hx with h | h
      · simp [h]
      · have := ih x h
        exact List.mem_cons_of_mem c this

theorem Split_no_newline (text : String) : ∀ l ∈ Split text '\n', '\n' ∉ l.data := by
  intro l hl
  simp only [Split, List.mem_map] at hl
  obtain ⟨seg, hseg, rfl⟩ := hl
  exact splitChars_no_sep '\n' text.data seg hseg

theorem wireLines_no_newline (text : String) : ∀ l ∈ wireLines text, '\n' ∉ l.data := by
  intro l hl
  simp only [wireLines, List.mem_append, List.mem_map] at hl
  rcases hl with ⟨seg, hseg, rfl⟩ | hl
  · intro hmem
    exact Split_no_newline text seg (List.mem_of_mem_dropLast hseg) (dropCR_subset _ _ hmem)
  · cases hlast : (Split text '\n').getLast? with
    | none => simp [hlast] at hl
    | some s =>
      simp only [hlast] at hl
      by_cases hs : s = ""
      · simp [hs] at hl
      · simp only [hs, if_false, List.mem_singleton] at hl
        subst hl
        exact Split_no_newline text l (List.mem_of_getLast?_eq_some hlast)

theorem codedLines_mem : ∀ (ls : List String) (l : String), l ∈ ls →
    ("250-" ++ l) ∈ codedLines ls ∨ ("250 " ++ l) ∈ codedLines ls := by
  intro ls
  induction ls with
  | nil => intro l hl; simp at hl
  | cons a as ih =>
    intro l hl
    cases as with
    | nil =>
      simp only [List.mem_singleton] at hl
      subst hl
      right
      simp [codedLines]
    | cons m ms =>
      simp only [List.mem_cons] at hl
      rcases hl with h | h
      · subst h
        left
        simp [codedLines]
      · rcases ih l (by simpa using h) with h1 | h1
        · left; simp only [codedLines, List.mem_cons]; right; exact h1
        · right; simp only [codedLines, List.mem_cons]; right; exact h1

theorem coded_no_newline (text : String) (ls : List String) (h : wireLines text = codedLines ls) :
    ∀ l ∈ ls, '\n' ∉ l.data := by
  intro l hl hmem
  rcases codedLines_mem ls l hl with h1 | h1
  · rw [← h] at h1
    exact wireLines_no_newline text _ h1 (by simp [String.data_append, hmem])
  · rw [← h] at h1
    exact wireLines_no_newline text _ h1 (by simp [String.data_append, hmem])

theorem parseCodeLine_more (l : String) : parseCodeLine ("250-" ++ l) = (250, true, l, none) := by
  have hd : ("250-" ++ l).data = '2' :: '5' :: '0' :: '-' :: l.data := by
    simp [String.data_append]
  have h2 : ('2' : Char).utf8Size = 1 := by decide
  have h5 : ('5' : Char).utf8Size = 1 := by decide
  have h0 : ('0' : Char).utf8Size = 1 := by decide
  have ht : takeBytes ('2' :: '5' :: '0' :: '-' :: l.data) 3
      = some (['2', '5', '0'], '-' :: l.data) := by
    simp [takeBytes, h2, h5, h0]
  have ha : Atoi ['2', '5', '0'] = some 250 := by decide
  simp [parseCodeLine, hd, ht, ha]

theorem parseCodeLine_last (l : String) : parseCodeLine ("250 " ++ l) = (250, false, l, none) := by
  have hd : ("250 " ++ l).data = '2' :: '5' :: '0' :: ' ' :: l.data := by
    simp [String.data_append]
  have h2 : ('2' : Char).utf8Size = 1 := by decide
  have h5 : ('5' : Char).utf8Size = 1 := by decide
  have h0 : ('0' : Char).utf8Size = 1 := by decide
  have ht : takeBytes ('2' :: '5' :: '0' :: ' ' :: l.data) 3
      = some (['2', '5', '0'], ' ' :: l.data) := by
    simp [takeBytes, h2, h5, h0]
  have ha : Atoi ['2', '5', '0'] = some 250 := by decide
  simp [parseCodeLine, hd, ht, ha]

theorem readContinued_coded : ∀ (ls : List String) (acc : String), ls ≠ [] →
    readContinued 250 (codedLines ls) acc = Reply.reply 250 (acc ++ "\n" ++ joinLines ls) := by
  intro ls
  induction ls with
  | nil => intro acc h; exact absurd rfl h
  | cons a as ih =>
    intro acc _
    cases as with
    | nil => simp [codedLines, readContinued, parseCodeLine_last, joinLines]
    | cons m ms =>
      have := ih (acc ++ "\n" ++ a) (by simp)
      simp only [String.append_assoc] at this
      simp [codedLines, readContinued, parseCodeLine_more, joinLines, this, String.append_assoc]

theorem wireReply_coded (text first : String) (later : List String)
    (h : wireLines text = codedLines (first :: later)) :
    wireReply text = Reply.reply 250 (joinLines (first :: later)) := by
  cases later with
  | nil => simp [wireReply, h, codedLines, parseCodeLine_last, joinLines]
  | cons m ms =>
    simp [wireReply, h, codedLines, parseCodeLine_more, joinLines,
      readContinued_coded (m :: ms) first (by simp)]

theorem Split_joinLines : ∀ (ls : List String), ls ≠ [] → (∀ l ∈ ls, '\n' ∉ l.data) →
    Split (joinLines ls) '\n' = ls := by
  intro ls
  induction ls with
  | nil => intro h; exact absurd rfl h
  | cons a as ih =>
    intro _ hn
    cases as with
    | nil => simp [joinLines, Split, splitChars_whole '\n' a.data (hn a (by simp))]
    | cons m ms =>
      have ha : '\n' ∉ a.data := hn a (by simp)
      have := ih (by simp) (fun l hl => hn l (List.mem_cons_of_mem a hl))
      simp only [joinLines]
      rw [Split_first_line a _ ha, this]

theorem parseExtensions_joinLines (first : String) (later : List String)
    (hn : ∀ l ∈ first :: later, '\n' ∉ l.data) :
    parseExtensions (joinLines (first :: later)) = later.foldl extensionLine (fun _ => none) := by
  unfold parseExtensions
  rw [Split_joinLines (first :: later) (by simp) hn]
  cases later with
  | nil => simp
  | cons m ms => simp

/-- The reply text with line feeds and the same reply with CRLF line ends have the
same lines, those of a 250 reply with three content lines. -/
theorem wireLines_ehlo_text :
    wireLines "250-mail.example.com\n250-PIPELINING\n250 AUTH PLAIN LOGIN"
      = codedLines ["mail.example.com", "PIPELINING", "AUTH PLAIN LOGIN"] ∧
    wireLines "250-mail.example.com\r\n250-PIPELINING\r\n250 AUTH PLAIN LOGIN\r\n"
      = codedLines ["mail.example.com", "PIPELINING", "AUTH PLAIN LOGIN"] := by
  constructor <;> rfl

/-- C4: when the `EHLO` line is written and the server's reply is the text `text`
(`ReadResponse` reads its lines and removes the code columns), every return of
`ehlo` satisfies: if the lines of the text are a 250 reply with the contents
`first`, `later` (`250-first`, ..., `250 last`), `ehlo` returns nil and the table
is built from the later lines only, each entered by `extensionLine`; the same
holds in terms of the message that the reading yields (empty table for a message
of one line).  `extensionLine` stores keyword -> parameter for a line
`keyword ++ " " ++ parameter` whose keyword has no space and line -> "" for a
line without a space.  When `ehlo` returns nil and the table has an `AUTH` entry,
the mechanism list is that parameter split on spaces.  For the reply text
`250-mail.example.com`, `250-PIPELINING`, `250 AUTH PLAIN LOGIN` the table has
`PIPELINING -> ""` and `AUTH -> "PLAIN LOGIN"` and the list is `["PLAIN", "LOGIN"]`.
On an idle pipeline `ehlo` does return. -/
theorem ehlo_extension_table (P : Peer) (c : Client) (text : String)
    (hw : P.onPrintfLine c.tConn.hist "EHLO %s" ["localhost"] = none)
    (hr : P.onReadResponse (c.tConn.hist ++ [Event.printfLine "EHLO %s" ["localhost"]])
      = wireReply text) :
    (∀ c1 err, ehlo P c = .ok (c1, err) →
      (∀ (first : String) (later : List String), wireLines text = codedLines (first :: later) →
        err = none ∧ c1.extensions = later.foldl extensionLine (fun _ => none)) ∧
      (∀ message, wireReply text = Reply.reply 250 message →
        err = none ∧
        (∀ first rest : String, '\n' ∉ first.data → message = first ++ "\n" ++ rest →
          c1.extensions = (Split rest '\n').foldl extensionLine (fun _ => none)) ∧
        ('\n' ∉ message.data → c1.extensions = fun _ => none)) ∧
      (∀ (m : String → Option String) (k p : String), ' ' ∉ k.data →
        extensionLine m (k ++ " " ++ p) = mapSet m k p ∧ mapSet m k p k = some p) ∧
      (∀ (m : String → Option String) (line : String), ' ' ∉ line.data →
        extensionLine m line = mapSet m line "" ∧ mapSet m line "" line = some "") ∧
      (err = none → ∀ mechs, c1.extensions "AUTH" = some mechs → c1.auth = Split mechs ' ') ∧
      (text = "250-mail.example.com\n250-PIPELINING\n250 AUTH PLAIN LOGIN" →
        err = none ∧ c1.extensions "PIPELINING" = some "" ∧
        c1.extensions "AUTH" = some "PLAIN LOGIN" ∧ c1.auth = ["PLAIN", "LOGIN"])) ∧
    (c.tConn.idle → ∃ c1 err, ehlo P c = .ok (c1, err)) := by
  constructor
  · intro c1 err hret
    have hidle : c.tConn.idle := by
      cases hE : Exec P c [NewCommand 250 "EHLO %s" ["localhost"]] with
      | error x => simp [ehlo, hE] at hret
      | ok r =>
        exact Exec_ok_written_idle P c _ r hE (by simp [writeLines, NewCommand, hw])
    have hmsg : ∀ message, wireReply text = Reply.reply 250 message →
        err = none ∧ c1.extensions = parseExtensions message ∧
        c1.auth = parseAuth (parseExtensions message) c.auth := by
      intro message hm
      obtain ⟨c3, hrun, hext, hauth⟩ := ehlo_spec P c message hidle hw (hr.trans hm)
      rw [hret] at hrun
      simp only [Except.ok.injEq, Prod.mk.injEq] at hrun
      obtain ⟨rfl, rfl⟩ := hrun
      exact ⟨rfl, hext, hauth⟩
    refine ⟨?_, ?_, ?_, ?_, ?_, ?_⟩
    · intro first later hl
      obtain ⟨he, hext, _⟩ := hmsg _ (wireReply_coded text first later hl)
      refine ⟨he, ?_⟩
      rw [hext]
      exact parseExtensions_joinLines first later (coded_no_newline text _ hl)
    · intro message hm
      obtain ⟨he, hext, _⟩ := hmsg message hm
      refine ⟨he, ?_, ?_⟩
      · intro first rest hn hfr
        rw [hext, hfr]
        exact parseExtensions_later_lines first rest hn
      · intro hn
        rw [hext]
        exact parseExtensions_one_line message hn
    · intro m k p hk
      exact ⟨extensionLine_keyword_parameter m k p hk, by simp [mapSet]⟩
    · intro m line hl
      exact ⟨extensionLine_keyword_only m line hl, by simp [mapSet]⟩
    · intro he
      subst he
      exact ehlo_ok_auth P c c1 hret
    · intro ht
      subst ht
      obtain ⟨he, hext, hauth⟩ := hmsg "mail.example.com\nPIPELINING\nAUTH PLAIN LOGIN" (by rfl)
      rw [hext, hauth]
      exact ⟨he, by rfl, by rfl, by rfl⟩
  · intro hidle
    exact ehlo_returns P c hidle hw

/-- C4 (witness): the reply text `250-mail.example.com`, `250-PIPELINING`,
`250 AUTH PLAIN LOGIN` on a fresh client. -/
theorem ehlo_extension_table_witness :
    (freshClient "example.org" "mail.example.org" (fun _ => none)).tConn.idle ∧
    ∃ c1, ehlo ehloPeer (freshClient "example.org" "mail.example.org" (fun _ => none))
        = .ok (c1, none) ∧
      c1.extensions "PIPELINING" = some "" ∧ c1.extensions "AUTH" = some "PLAIN LOGIN" ∧
      c1.auth = ["PLAIN", "LOGIN"] := by
  refine ⟨by decide, ?_⟩
  have h := ehlo_extension_table ehloPeer
    (freshClient "example.org" "mail.example.org" (fun _ => none))
    "250-mail.example.com\n250-PIPELINING\n250 AUTH PLAIN LOGIN" (by rfl) (by rfl)
  obtain ⟨c1, err, h1⟩ := h.2 (by decide)
  obtain ⟨_, _, _, _, _, h6⟩ := h.1 c1 err h1
  obtain ⟨he, hrest⟩ := h6 rfl
  subst he
  exact ⟨c1, h1, hrest⟩

/-! ## Clients that `NewClient` returns -/

theorem Exec_ok_idle_after (P : Peer) (c : Client) (cmd : List Command) (r : ExecResult)
    (hr : Exec P c cmd = .ok r) (he : r.err = none) : r.c.tConn.idle := by
  cases hw : (writeLines P cmd c.tConn.hist).2 with
  | some e =>
    obtain ⟨h1, _⟩ := Exec_ok_write_error P c cmd r hr e hw
    rw [h1] at he
    simp at he
  | none =>
    obtain ⟨hq, hp⟩ := Exec_ok_written_idle P c cmd r hr hw
    simp only [Exec, hq, hp, hw, ne_eq, not_true_eq_false, if_false] at hr
    split at hr
    · exact absurd hr (by simp)
    · have := Except.ok.inj hr
      subst this
      exact ⟨rfl, rfl⟩

theorem ehlo_ok_idle_after (P : Peer) (c c1 : Client) (h : ehlo P c = .ok (c1, none)) :
    c1.tConn.idle := by
  cases hE : Exec P c [NewCommand 250 "EHLO %s" ["localhost"]] with
  | error x => simp [ehlo, hE] at h
  | ok r =>
    cases he : r.err with
    | some e => simp [ehlo, hE, he] at h
    | none =>
      have hid := Exec_ok_idle_after P c _ r hE he
      cases hf : firstResponse r.cmd with
      | error x => simp [ehlo, hE, he, hf] at h
      | ok rsp =>
        simp only [ehlo, hE, he, hf, Except.ok.injEq, Prod.mk.injEq, and_true] at h
        rw [← h]
        exact hid

/-- Without a mechanism, every client that `NewClient` returns has an idle
pipeline. -/
theorem NewClient_idle {μ : Type} (N : Net) (E : Encoding) (P : Peer) (fuel : Nat)
    (domain addr : String) (s : μ) (r : NewClientResult μ) (c : Client)
    (h : NewClient N E P fuel domain addr (none : Option (Auth μ)) s = .ok r)
    (hc : r.c = some c) : c.tConn.idle := by
  unfold NewClient at h
  cases hs : N.SplitHostPort addr with
  | error e =>
    simp only [hs, Except.ok.injEq] at h
    rw [← h] at hc
    simp at hc
  | ok host =>
    simp only [hs] at h
    cases hconn : connect N P
      { Domain := domain, Host := host, tConn := NewConn [], extensions := fun _ => none, auth := [] }
      addr with
    | mk c1 eo =>
      cases eo with
      | some e =>
        simp only [hconn, Except.ok.injEq] at h
        rw [← h] at hc
        simp at hc
      | none =>
        simp only [hconn] at h
        cases hehlo : ehlo P c1 with
        | error x => simp [hehlo] at h
        | ok x =>
          obtain ⟨c2, eo2⟩ := x
          cases eo2 with
          | some e =>
            simp only [hehlo] at h
            cases hE : Exec P c2 [NewCommand 250 "HELO %s" ["localhost"]] with
            | error x => simp [hE] at h
            | ok r0 =>
              cases he : r0.err with
              | some e2 =>
                simp only [hE, he, Except.ok.injEq] at h
                rw [← h] at hc
                simp at hc
              | none =>
                simp only [hE, he, Except.ok.injEq] at h
                rw [← h] at hc
                simp only [Option.some.injEq] at hc
                rw [← hc]
                exact Exec_ok_idle_after P c2 _ r0 hE he
          | none =>
            have hid2 := ehlo_ok_idle_after P c1 c2 hehlo
            simp only [hehlo] at h
            cases htls : c2.IsExtension "STARTTLS" with
            | false =>
              simp only [htls, Bool.false_eq_true, if_false, Except.ok.injEq] at h
              rw [← h] at hc
              simp only [Option.some.injEq] at hc
              rw [← hc]
              exact hid2
            | true =>
              simp only [htls, if_true] at h
              cases hE : Exec P c2 [NewCommand 220 "STARTTLS" []] with
              | error x => simp [hE] at h
              | ok r1 =>
                cases he : r1.err with
                | some e2 =>
                  simp only [hE, he, Except.ok.injEq] at h
                  rw [← h] at hc
                  simp at hc
                | none =>
                  simp only [hE, he, Except.ok.injEq] at h
                  rw [← h] at hc
                  simp only [Option.some.injEq] at hc
                  rw [← hc]
                  exact ⟨rfl, rfl⟩

/-- A write error leaves the pipeline in its request phase (`Exec` returns before
`EndRequest`): the envelope of that submission is a bounce, and the next
`MailSend` on the same client waits in `StartRequest` and does not return. -/
theorem MailSend_blocks_after_write_failure :
    (MailSend (scriptPeer [] (some 0))
        (freshClient "example.org" "mail.example.org" (fun _ => none))
        5 2000005 "a@example.com" "u" "SMTPING" "hello").toOption.map
      (fun r => (r.2.Stat, r.1.tConn.Pipeline, decide r.1.tConn.idle,
        (MailSend (scriptPeer [] (some 0)) r.1 5 2000005 "a@example.com" "u" "SMTPING"
          "hello").toOption.isSome))
      = some ("bounce", { id := 1, request := 0, response := 0 }, false, false) := by
  decide

end Smtping
